import Mathlib

/-!
Verification development for the incremental mind-map layout & merge engine
(React/TypeScript sources in `src/components/MindMap.tsx`,
`src/utils/mindMapTransform.ts` and their sibling variants).

The TypeScript functions are shallowly embedded as executable Lean
definitions.  All JavaScript numbers are modelled as exact rationals (`ℚ`);
the few calls to transcendental library functions (`Math.cos`, `Math.sin`,
`Math.sqrt`) are threaded through an explicit `Oracles` record so that the
theorems below can either hold for every bounded oracle (which in particular
covers the real IEEE values) or be evaluated on a concrete rational
stand-in table.  JavaScript `Map`/object-key semantics (insertion order,
last-value-wins) are modelled by explicit association lists.
-/

namespace MindMapViz

/-- 2-D position; both coordinates are JavaScript numbers, modelled as `ℚ`. -/
structure Pos where
  x : ℚ
  y : ℚ
deriving DecidableEq, Repr

/-- A displayed node.  Of the React-Flow node record only the fields read by
the layout / merge engine are kept: `id`, `data.label` and `position`. -/
structure Node where
  id : String
  label : String
  pos : Pos
deriving DecidableEq, Repr

/-- A directed edge, `source → target` (field `id` is the edge id). -/
structure Edge where
  id : String
  source : String
  target : String
deriving DecidableEq, Repr

/-- Result pair `{ nodes, edges }` returned by the merge / transform
functions. -/
structure Flow where
  nodes : List Node
  edges : List Edge
deriving DecidableEq, Repr

/-! ### Layout constants (MindMap.tsx, lines 39-45) -/

def startXC : ℚ := 400
def startYC : ℚ := 40
def xGapC : ℚ := 40
def yGapC : ℚ := 110
def staggerYC : ℚ := 32
def minNodePadding : ℚ := 20
def minNodeHeightC : ℚ := 26

/-- `estimateNodeWidth(label) = max(80, label.length * 8.5 + minNodePadding*2 + 40)`. -/
def estimateNodeWidth (label : String) : ℚ :=
  max 80 ((label.length : ℚ) * (17/2) + minNodePadding * 2 + 40)

/-- `estimateNodeHeight() = max(minNodeHeight, 30)`. -/
def estimateNodeHeight : ℚ := max minNodeHeightC 30

/-! ### JavaScript object / Map semantics

`Object.fromEntries` keeps, for each key, its first insertion position and
its last assigned value; `Map.set` behaves the same way.  We model both by
association lists with the helpers below. -/

/-- Does the association list contain the key? -/
def hasKey (m : List (String × α)) (k : String) : Bool :=
  m.any (fun p => p.1 == k)

/-- Look up the value stored under a key (there is at most one in all the
lists we build). -/
def lookupA (m : List (String × α)) (k : String) : Option α :=
  (m.find? (fun p => p.1 == k)).map (·.2)

/-- `m[k] = v` on a JavaScript object: overwrite the value in place if the
key exists, otherwise append. -/
def upsertA (m : List (String × α)) (k : String) (v : α) : List (String × α) :=
  if hasKey m k then m.map (fun p => if p.1 == k then (k, v) else p)
  else m ++ [(k, v)]

/-- `Object.fromEntries`: fold the entry list with JavaScript assignment
semantics. -/
def fromEntriesJS (l : List (String × α)) : List (String × α) :=
  l.foldl (fun m p => upsertA m p.1 p.2) []

/-! ### Merge engine, replace-children policy
(`mergeExpandedNodesAndEdges`, mindMapTransform.ts lines 7-32). -/

/-- The ids of the direct children of the expanded node:
`prevEdges.filter(e => e.source === expandedNodeId).map(e => e.target)`. -/
def oldChildrenIds (prevEdges : List Edge) (expandedNodeId : String) : List String :=
  (prevEdges.filter (fun e => e.source == expandedNodeId)).map (·.target)

/-- `mergeExpandedNodesAndEdges(prevNodes, prevEdges, newNodes, newEdges,
expandedNodeId)`: drop the direct children of the expanded node and the
edges from the expanded node to them, then append the new elements. -/
def mergeExpandedNodesAndEdges (prevNodes : List Node) (prevEdges : List Edge)
    (newNodes : List Node) (newEdges : List Edge) (expandedNodeId : String) : Flow :=
  let oldIds := oldChildrenIds prevEdges expandedNodeId
  let filteredNodes := prevNodes.filter (fun n => !(oldIds.contains n.id))
  let filteredEdges := prevEdges.filter
    (fun e => !(e.source == expandedNodeId && oldIds.contains e.target))
  ⟨filteredNodes ++ newNodes, filteredEdges ++ newEdges⟩

/-! ### Merge engine, append-new-only policy
(`mergeNodesEdges`, unnamed variant part_003 lines 4-21).

Both halves of the source function perform the same id-keyed merge, once for
nodes and once for edges, so the common core is factored out here over an
arbitrary id projection. -/

/-- The `for (const a of newElems) if (!map[id]) map[id] = a` loop. -/
def addNewById (key : α → String) (m : List (String × α)) (new_ : List α) :
    List (String × α) :=
  new_.foldl (fun m a => if hasKey m (key a) then m else m ++ [(key a, a)]) m

/-- Id-keyed merge: build a map from the previous elements, then add each new
element only if its id is not present yet, and return the map's values. -/
def mergeById (key : α → String) (prev new_ : List α) : List α :=
  (addNewById key (fromEntriesJS (prev.map (fun a => (key a, a)))) new_).map (·.2)

/-- `mergeNodesEdges(prevNodes, prevEdges, newNodes, newEdges)`. -/
def mergeNodesEdges (prevNodes : List Node) (prevEdges : List Edge)
    (newNodes : List Node) (newEdges : List Edge) : Flow :=
  ⟨mergeById Node.id prevNodes newNodes, mergeById Edge.id prevEdges newEdges⟩

/-! ### Graph index (`getChildMap`, `getDescendantIds`, part_002 lines 41-58).

`getChildMap` builds `source → targets` in edge-array order; the record it
returns is modelled as a function.  `getDescendantIds` is a plain recursive
traversal with **no** guard against revisiting an id, so it is embedded with
an explicit stack-depth fuel: `none` models the JavaScript stack overflow. -/

/-- `getChildMap(edges)` as a lookup function: the targets of the edges whose
source is the queried id, in edge order. -/
def getChildMap (edges : List Edge) : String → List String :=
  fun s => (edges.filter (fun e => e.source == s)).map (·.target)

/-- The `for (const c of children)` loop of `getDescendantIds`: push each
child onto the accumulator and recurse into it (`recur` is the recursive
call one stack level deeper). -/
def goDescAux (recur : String → List String → Option (List String)) :
    List String → List String → Option (List String)
  | [], acc => some acc
  | c :: cs, acc =>
    match recur c (acc ++ [c]) with
    | none => none
    | some acc2 => goDescAux recur cs acc2

/-- `getDescendantIds(nodeId, childMap, acc)` with an explicit remaining
stack depth; `none` models the stack overflow of the unguarded JavaScript
recursion. -/
def goDescD (childMap : String → List String) : Nat → String → List String → Option (List String)
  | 0, _, _ => none
  | fuel + 1, nodeId, acc =>
    goDescAux (fun c a => goDescD childMap fuel c a) (childMap nodeId) acc

/-- `getDescendantIds(nodeId, childMap)` (entry point, empty accumulator). -/
def getDescendantIds (childMap : String → List String) (fuel : Nat) (nodeId : String) :
    Option (List String) :=
  goDescD childMap fuel nodeId []

/-! ### GPT-result transform (`transformGPTToFlow`, mindMapTransform.ts
lines 45-94; the variant in part_002 lines 133-190 has the identical guard
and the identical unguarded `gptData.edges.map`).

The raw value received from the collaborator may be `null`, may lack the
`nodes` field, or may lack the `edges` field; `Option` models the missing
pieces.  A missing node position is replaced by `Math.random()`-based
coordinates, modelled by an explicit position stream `rand`.  The result is
`none` when the JavaScript code would throw a `TypeError`. -/

/-- A node record as emitted by the generation collaborator. -/
structure RawNode where
  id : String
  label : String
  position : Option Pos
deriving DecidableEq, Repr

/-- An edge record as emitted by the generation collaborator. -/
structure RawEdge where
  id : String
  source : String
  target : String
deriving DecidableEq, Repr

/-- The collaborator's payload; each field may be absent. -/
structure GPTData where
  nodes : Option (List RawNode)
  edges : Option (List RawEdge)
deriving DecidableEq, Repr

/-- `transformGPTToFlow(gptData)`: the `!gptData || !gptData.nodes` guard
returns an empty flow; with `nodes` present the nodes are mapped, and then
`gptData.edges.map(...)` is evaluated with no guard — when `edges` is absent
this is a `TypeError`, modelled by `none`. -/
def transformGPTToFlow (rand : Nat → Pos) (gptData : Option GPTData) : Option Flow :=
  match gptData with
  | none => some ⟨[], []⟩
  | some d =>
    match d.nodes with
    | none => some ⟨[], []⟩
    | some ns =>
      let nodes := (ns.enum).map
        (fun p => ({ id := p.2.id, label := p.2.label,
                     pos := p.2.position.getD (rand p.1) } : Node))
      match d.edges with
      | none => none
      | some es =>
        some ⟨nodes, es.map (fun e => ⟨e.id, e.source, e.target⟩)⟩

/-! ### Drag handler (`onNodesChange`, MindMap.tsx lines 840-919).

Only the `position` changes are modelled (non-position changes are handed to
the external React-Flow library and are outside this core).  The handler
computes, for each change, the delta against the node's current position,
queues the moved node and all of its cached descendants into a
`positionUpdates` map, and finally applies the map in a single pass. -/

/-- A React-Flow position change carrying a defined position. -/
structure PosChange where
  id : String
  position : Pos
deriving DecidableEq, Repr

/-- `nodeMap.get(id)` where `nodeMap` maps each id to its index set with
`Map.set` in array order: for duplicate ids the last occurrence wins. -/
def jsNodeByIdLast (nds : List Node) (id : String) : Option Node :=
  nds.reverse.find? (fun n => n.id == id)

/-- One step of the descendant loop of a position change: a descendant id
present in the node list is queued at its old position shifted by the drag
delta. -/
def dragStep (nds : List Node) (dx dy : ℚ) (u : List (String × Pos)) (d : String) :
    List (String × Pos) :=
  match jsNodeByIdLast nds d with
  | none => u
  | some dn => upsertA u d ⟨dn.pos.x + dx, dn.pos.y + dy⟩

/-- Queue the position updates produced by one position change: the changed
node moves by `(dx, dy)` and every cached descendant present in the node
list moves by the same delta (deltas are measured against the pre-update
node list `nds`). -/
def queueChange (descMap : String → List String) (nds : List Node)
    (upd : List (String × Pos)) (ch : PosChange) : List (String × Pos) :=
  match jsNodeByIdLast nds ch.id with
  | none => upd
  | some node =>
    let dx := ch.position.x - node.pos.x
    let dy := ch.position.y - node.pos.y
    if dx = 0 ∧ dy = 0 then upd
    else
      (descMap ch.id).foldl (dragStep nds dx dy)
        (upsertA upd ch.id ⟨node.pos.x + dx, node.pos.y + dy⟩)

/-- The position part of `onNodesChange`: queue all updates, then apply them
to the node list in one pass. -/
def onNodesChangePos (descMap : String → List String) (nds : List Node)
    (changes : List PosChange) : List Node :=
  let updates := changes.foldl (queueChange descMap nds) []
  nds.map (fun n => (lookupA updates n.id).elim n (fun p => { n with pos := p }))

/-! ### Geometry: bounding boxes, collision test, spatial grid
(MindMap.tsx lines 56-139, 450-509). -/

/-- An axis-aligned rectangle; `x`/`y` is the top-left corner. -/
structure BoundingBox where
  x : ℚ
  y : ℚ
  width : ℚ
  height : ℚ
deriving DecidableEq, Repr

/-- `checkCollisionWithSpacing(a, b, spacing)`: the boxes collide unless one
is strictly clear of the other by more than `spacing` on some axis. -/
def checkCollisionWithSpacing (a b : BoundingBox) (spacing : ℚ) : Bool :=
  !(a.x + a.width + spacing < b.x ||
    b.x + b.width + spacing < a.x ||
    a.y + a.height + spacing < b.y ||
    b.y + b.height + spacing < a.y)

/-- The estimated footprint of a node: a `estimateNodeWidth × 30` rectangle
centred on its position (as registered by `createSpatialGrid` and used by
`validateNodePositions`). -/
def nodeBox (n : Node) : BoundingBox :=
  let w := estimateNodeWidth n.label
  let h := estimateNodeHeight
  ⟨n.pos.x - w / 2, n.pos.y - h / 2, w, h⟩

/-- Do the grid-cell ranges of two boxes overlap for the given cell size?  A
node is registered in every cell between `⌊x / cellSize⌋` and
`⌊(x + width) / cellSize⌋` (both axes), so a node appears among the grid
candidates of a query area exactly when the ranges meet on both axes. -/
def boxCellsOverlap (cellSize : ℚ) (a b : BoundingBox) : Bool :=
  decide (⌊a.x / cellSize⌋ ≤ ⌊(b.x + b.width) / cellSize⌋) &&
  decide (⌊b.x / cellSize⌋ ≤ ⌊(a.x + a.width) / cellSize⌋) &&
  decide (⌊a.y / cellSize⌋ ≤ ⌊(b.y + b.height) / cellSize⌋) &&
  decide (⌊b.y / cellSize⌋ ≤ ⌊(a.y + a.height) / cellSize⌋)

/-- `checkAreaCollision(spatialGrid, area, minGap)` where the grid was built
from `nodes` with the given cell size: functionally, some node whose cell
range meets the area's cell range collides with the area.  (This is
observationally the grid lookup of the source: a node id is among the grid
candidates of `area` iff the two cell ranges intersect.) -/
def checkAreaCollision (cellSize : ℚ) (nodes : List Node) (area : BoundingBox)
    (minGap : ℚ) : Bool :=
  nodes.any (fun n =>
    boxCellsOverlap cellSize area (nodeBox n) &&
    checkCollisionWithSpacing area (nodeBox n) minGap)

/-- All index pairs `(i, j)` with `i < j < n`, in the nested-loop order of
the source. -/
def pairIndices (n : Nat) : List (Nat × Nat) :=
  (List.range n).flatMap (fun i => ((List.range (n - i - 1)).map (fun k => (i, i + k + 1))))

/-- `validateNodePositions(nodes, minGap).hasOverlaps`: does any pair of
distinct nodes collide once the footprints are expanded by the minimum
gap? -/
def validateHasOverlaps (nodes : List Node) (minGap : ℚ) : Bool :=
  (pairIndices nodes.length).any (fun p =>
    match nodes[p.1]?, nodes[p.2]? with
    | some a, some b => checkCollisionWithSpacing (nodeBox a) (nodeBox b) minGap
    | _, _ => false)

/-! ### Oracles for the JavaScript math library

`Math.cos` / `Math.sin` are only ever called at the angles `k·π/12` (the
individual spiral) and `k·π/8` (the bulk spiral); the oracle receives the
angle as a rational multiple of π.  `Math.sqrt` receives arbitrary
rationals.  The concrete instance `floatOracles` below is a rational
stand-in for the IEEE values; every theorem whose truth depends on an
oracle value only assumes properties (bounds, values at 0) that the real
IEEE functions satisfy. -/

structure Oracles where
  cosPi : ℚ → ℚ
  sinPi : ℚ → ℚ
  sqrtQ : ℚ → ℚ

/-- `sin(k·π/24)` for `k = 0..12`, rounded to four decimals (a rational
stand-in for the IEEE values; all theorems only use that these values lie
in `[-1, 1]` and that the value at 0 is 0). -/
def sinTableQuarter : Nat → ℚ
  | 0 => 0
  | 1 => 1305/10000
  | 2 => 2588/10000
  | 3 => 3827/10000
  | 4 => 5/10
  | 5 => 6088/10000
  | 6 => 7071/10000
  | 7 => 7934/10000
  | 8 => 8660/10000
  | 9 => 9239/10000
  | 10 => 9659/10000
  | 11 => 9914/10000
  | _ => 1

/-- `sin(k·π/24)` for any integer `k`, by symmetry from the first quarter. -/
def sinTable (k : Int) : ℚ :=
  let r := (k % 48).toNat
  if r ≤ 12 then sinTableQuarter r
  else if r ≤ 24 then sinTableQuarter (24 - r)
  else if r ≤ 36 then -sinTableQuarter (r - 24)
  else -sinTableQuarter (48 - r)

/-- Rational stand-in for `Math.sin(q·π)`: table lookup when `q` is a
multiple of `1/24` (which covers every angle the engine uses), `0`
otherwise. -/
def sinPiQ (q : ℚ) : ℚ :=
  if (q * 24).den = 1 then sinTable (q * 24).num else 0

/-- Rational stand-in for `Math.cos(q·π)`, via `cos x = sin(x + π/2)`. -/
def cosPiQ (q : ℚ) : ℚ := sinPiQ (q + 1/2)

/-- Newton iteration for the integer square root, with an explicit fuel
bound (the guess strictly decreases, so fuel `n` always suffices and the
value agrees with the usual integer square root). -/
def sqrtIter : Nat → Nat → Nat → Nat
  | 0, _, guess => guess
  | fuel + 1, n, guess =>
    let next := (guess + n / guess) / 2
    if next < guess then sqrtIter fuel n next else guess

/-- Integer square root by fuel-bounded Newton iteration. -/
def natSqrtF (n : Nat) : Nat := if n ≤ 1 then n else sqrtIter n n (n / 2)

/-- Rational stand-in for `Math.sqrt`: exact on squares of naturals (the
only case any theorem relies on), a deterministic under-approximation
elsewhere. -/
def sqrtQ (q : ℚ) : ℚ :=
  if q ≤ 0 then 0 else ((natSqrtF (q.num.toNat * q.den) : ℚ) / (q.den : ℚ))

/-- The concrete oracle instance used by all closed evaluations. -/
def floatOracles : Oracles := ⟨cosPiQ, sinPiQ, sqrtQ⟩

/-! ### Overlap resolver (`resolveNodeOverlapsBoundingBox`, MindMap.tsx
lines 629-789).

State per node: the node itself (whose `position` is mutated) plus its
cached `_box` top-left corner, width, height and the `_moved` flag.  The
`_originalPos` field and the `centerX`/`centerY` box fields are written but
never read by the source and are omitted; the `createSpatialGrid` calls
inside the loop are dead (the grid is never queried there) and are likewise
omitted. -/

structure RBox where
  n : Node
  x : ℚ
  y : ℚ
  w : ℚ
  h : ℚ
  moved : Bool
deriving DecidableEq, Repr

/-- The accumulated repulsion force on one node. -/
structure Force where
  fx : ℚ
  fy : ℚ
  count : Nat
deriving DecidableEq, Repr

/-- Initial box state of a node. -/
def mkRBox (n : Node) : RBox :=
  let w := estimateNodeWidth n.label
  let h := estimateNodeHeight
  ⟨n, n.pos.x - w / 2, n.pos.y - h / 2, w, h, false⟩

def dummyRBox : RBox := mkRBox ⟨"", "", ⟨0, 0⟩⟩

/-- The expanded x-overlap of two boxes, as computed by the resolver. -/
def xOverlapOf (minGap : ℚ) (a b : RBox) : ℚ :=
  max 0 (min (a.x + a.w + minGap) (b.x + b.w + minGap) - max a.x b.x)

/-- The expanded y-overlap of two boxes, as computed by the resolver. -/
def yOverlapOf (minGap : ℚ) (a b : RBox) : ℚ :=
  max 0 (min (a.y + a.h + minGap) (b.y + b.h + minGap) - max a.y b.y)

/-- The resolver's overlap condition `xOverlap > minGap && yOverlap >
minGap` (which is exactly raw intersection of the unexpanded boxes). -/
def overlapCond (minGap : ℚ) (a b : RBox) : Bool :=
  decide (minGap < xOverlapOf minGap a b) && decide (minGap < yOverlapOf minGap a b)

/-- The force contribution of one overlapping pair `(a, b)`, as `(fx, fy)`
to be subtracted from `a`'s force and added to `b`'s; `none` when the pair
does not overlap. -/
def pairForce (sq : ℚ → ℚ) (minGap : ℚ) (a b : RBox) : Option (ℚ × ℚ) :=
  let xOverlap := xOverlapOf minGap a b
  let yOverlap := yOverlapOf minGap a b
  if overlapCond minGap a b then
    let forceStrength := sq (xOverlap * yOverlap) * (1/2)
    if yOverlap < xOverlap then
      let fy0 := (yOverlap - minGap) / 2 + forceStrength
      some (0, if a.y < b.y then -fy0 else fy0)
    else
      let fx0 := (xOverlap - minGap) / 2 + forceStrength
      some (if a.x < b.x then -fx0 else fx0, 0)
  else none

/-- One pass of the pairwise force accumulation over the force map. -/
def accumForces (sq : ℚ → ℚ) (minGap : ℚ) (boxes : List RBox)
    (forces : List (String × Force)) : List (String × Force) :=
  (pairIndices boxes.length).foldl
    (fun fs p =>
      let a := (boxes[p.1]?).getD dummyRBox
      let b := (boxes[p.2]?).getD dummyRBox
      match pairForce sq minGap a b with
      | none => fs
      | some (fx, fy) =>
        let fs := match lookupA fs a.n.id with
          | some f => upsertA fs a.n.id ⟨f.fx - fx, f.fy - fy, f.count + 1⟩
          | none => fs
        match lookupA fs b.n.id with
        | some f => upsertA fs b.n.id ⟨f.fx + fx, f.fy + fy, f.count + 1⟩
        | none => fs)
    forces

/-- Clamp a displacement to `[-30, 30]` (`maxMove`). -/
def clampMove (d : ℚ) : ℚ := max (-30) (min 30 d)

/-- Apply the accumulated forces to the boxes in order, threading
`totalMoved` and the `moved` flag of the iteration. -/
def applyForces (maxMovedNodes : Nat) (forces : List (String × Force)) :
    List RBox → Nat → (List RBox × Nat × Bool)
  | [], totalMoved => ([], totalMoved, false)
  | b :: bs, totalMoved =>
    let f := (lookupA forces b.n.id).getD ⟨0, 0, 0⟩
    if 0 < f.count ∧ totalMoved < maxMovedNodes ∧ b.moved = false then
      let dx0 := clampMove (f.fx * (6/10) / f.count)
      let dy0 := clampMove (f.fy * (6/10) / f.count)
      let dx := if |dy0| < |dx0| then dx0 * (7/10) else dx0
      let dy := if |dy0| < |dx0| then dy0 * (13/10) else dy0
      let px := b.n.pos.x + dx
      let py := b.n.pos.y + dy
      let big := decide (1 < |dx|) || decide (1 < |dy|)
      let b' : RBox :=
        { n := { b.n with pos := ⟨px, py⟩ },
          x := px - b.w / 2, y := py - b.h / 2, w := b.w, h := b.h,
          moved := b.moved || big }
      let totalMoved' := if big then totalMoved + 1 else totalMoved
      let (bs', tm', mv') := applyForces maxMovedNodes forces bs totalMoved'
      (b' :: bs', tm', mv' || big)
    else
      let (bs', tm', mv') := applyForces maxMovedNodes forces bs totalMoved
      (b :: bs', tm', mv')

/-- One iteration of the relaxation loop: initialise the per-id force map,
accumulate the pairwise forces, apply them. -/
def resolveIter (sq : ℚ → ℚ) (minGap : ℚ) (maxMovedNodes : Nat)
    (boxes : List RBox) (totalMoved : Nat) : (List RBox × Nat × Bool) :=
  let forces0 := boxes.foldl (fun m b => upsertA m b.n.id (⟨0, 0, 0⟩ : Force)) []
  let forces := accumForces sq minGap boxes forces0
  applyForces maxMovedNodes forces boxes totalMoved

/-- The bounded relaxation loop with its early exit: stop after an iteration
that produced no significant movement. -/
def resolveLoop (sq : ℚ → ℚ) (minGap : ℚ) (maxMovedNodes : Nat) :
    Nat → List RBox → Nat → List RBox
  | 0, boxes, _ => boxes
  | iters + 1, boxes, totalMoved =>
    let (boxes', totalMoved', moved) := resolveIter sq minGap maxMovedNodes boxes totalMoved
    if moved then resolveLoop sq minGap maxMovedNodes iters boxes' totalMoved'
    else boxes'

/-- One step of the final validation pass on the pair `(i, j)`. -/
def finalPassStep (minGap : ℚ) (boxes : List RBox) (p : Nat × Nat) : List RBox :=
  let a := (boxes[p.1]?).getD dummyRBox
  let b := (boxes[p.2]?).getD dummyRBox
  if overlapCond minGap a b then
    let pushY := (yOverlapOf minGap a b - minGap) / 2 + 5
    let a' : RBox := { a with n := { a.n with pos := ⟨a.n.pos.x, a.n.pos.y - pushY⟩ },
                              y := (a.n.pos.y - pushY) - a.h / 2 }
    let b' : RBox := { b with n := { b.n with pos := ⟨b.n.pos.x, b.n.pos.y + pushY⟩ },
                              y := (b.n.pos.y + pushY) - b.h / 2 }
    (boxes.set p.1 a').set p.2 b'
  else boxes

/-- The final validation pass: force apart, in nested-loop order, every pair
still raw-overlapping at the moment it is visited. -/
def finalPass (minGap : ℚ) (boxes : List RBox) : List RBox :=
  (pairIndices boxes.length).foldl (finalPassStep minGap) boxes

/-- `resolveNodeOverlapsBoundingBox(nodes, minGap, maxIters)`. -/
def resolveNodeOverlapsBoundingBox (sq : ℚ → ℚ) (nodes : List Node)
    (minGap : ℚ) (maxIters : Nat) : List Node :=
  if nodes.isEmpty then nodes
  else
    let sorted := nodes.mergeSort (fun a b => a.pos.y ≤ b.pos.y)
    let boxes := sorted.map mkRBox
    let maxMovedNodes := (((boxes.length : ℚ) * (3/10)).ceil).toNat
    let boxes := resolveLoop sq minGap maxMovedNodes maxIters boxes 0
    let boxes := finalPass minGap boxes
    boxes.map (·.n)

/-! ### Space-finding search (`findOpenSpace` lines 266-448,
`findBulkSpace` lines 142-263).

Each of the source's ordered strategy closures is embedded as a named
function; `findOpenSpace` / `findBulkSpace` run them in order and fall back
to the guaranteed placement. -/

/-- A scored candidate position of the search strategies. -/
structure Scored where
  x : ℚ
  y : ℚ
  score : ℚ
deriving DecidableEq, Repr

/-- `positions.reduce((a, b) => a.score < b.score ? a : b)`. -/
def bestScored : List Scored → Option Scored
  | [] => none
  | h :: t => some (t.foldl (fun a b => if a.score < b.score then a else b) h)

/-- `baseStaggerY = sign * offsetIdx * (staggerY * 0.8)` of `findOpenSpace`. -/
def openBaseStaggerY (childIndex : Nat) : ℚ :=
  (if childIndex % 2 = 0 then 1 else -1) * (((childIndex + 1) / 2 : Nat) : ℚ) * (staggerYC * (4/5))

/-- `baseY = parent.y + max(yGap, nodeHeight * 1.5)` of `findOpenSpace`. -/
def openBaseY (parentNode : Node) (nodeHeight : ℚ) : ℚ :=
  parentNode.pos.y + max yGapC (nodeHeight * (3/2))

/-- `proposedX = baseX + initialSpread` of `findOpenSpace`. -/
def openProposedX (parentNode : Node) (nodeWidth : ℚ) (childIndex siblingCount : Nat) : ℚ :=
  parentNode.pos.x + ((childIndex : ℚ) - ((siblingCount : ℚ) - 1) / 2) * (nodeWidth + xGapC)

/-- The `pos.y <= parentBottom + nodeHeight/2` skip guard of `findOpenSpace`
(`parentBottom = parent.y + nodeHeight`). -/
def openGuardFail (parentNode : Node) (nodeHeight y : ℚ) : Bool :=
  decide (y ≤ (parentNode.pos.y + nodeHeight) + nodeHeight / 2)

/-- The collision test of every `findOpenSpace` candidate: the node-sized
rectangle centred at the candidate, against the spatial grid with
`minNodePadding` spacing. -/
def openCollides (existingNodes : List Node) (nodeWidth nodeHeight x y : ℚ) : Bool :=
  checkAreaCollision 100 existingNodes
    ⟨x - nodeWidth / 2, y - nodeHeight / 2, nodeWidth, nodeHeight⟩ minNodePadding

/-- `findOpenSpace` strategy 1: five preferred positions around the ideal
location, first one that passes the guard and collides with nothing. -/
def openSpaceStrategy1 (existingNodes : List Node) (parentNode : Node)
    (nodeWidth nodeHeight : ℚ) (childIndex siblingCount : Nat) : Option Pos :=
  let bs := openBaseStaggerY childIndex
  let baseY := openBaseY parentNode nodeHeight
  let proposedX := openProposedX parentNode nodeWidth childIndex siblingCount
  ([⟨proposedX, baseY + bs⟩,
    ⟨proposedX - nodeWidth, baseY + bs⟩,
    ⟨proposedX + nodeWidth, baseY + bs⟩,
    ⟨proposedX, baseY + bs + nodeHeight⟩,
    ⟨proposedX, baseY + bs - nodeHeight⟩] : List Pos).find?
    (fun p => !(openGuardFail parentNode nodeHeight p.y) &&
      !(openCollides existingNodes nodeWidth nodeHeight p.x p.y))

/-- `findOpenSpace` strategy 2: spiral search (radius 25..300 step 25,
angle step π/12); per radius the best-scoring valid candidate wins. -/
def openSpaceStrategy2 (o : Oracles) (existingNodes : List Node) (parentNode : Node)
    (nodeWidth nodeHeight : ℚ) (childIndex siblingCount : Nat) : Option Scored :=
  let bs := openBaseStaggerY childIndex
  let baseY := openBaseY parentNode nodeHeight
  let proposedX := openProposedX parentNode nodeWidth childIndex siblingCount
  (List.range 12).findSome? (fun (i : Nat) =>
    let radius : ℚ := 25 * ((i : ℚ) + 1)
    bestScored ((List.range 24).filterMap (fun (k : Nat) =>
      let x := proposedX + o.cosPi ((k : ℚ) / 12) * radius
      let y := max (baseY + bs) (baseY + |o.sinPi ((k : ℚ) / 12)| * radius)
      if openGuardFail parentNode nodeHeight y ||
          openCollides existingNodes nodeWidth nodeHeight x y then none
      else some (⟨x, y, o.sqrtQ ((x - proposedX) ^ 2 + (y - (baseY + bs)) ^ 2)⟩ : Scored))))

/-- `findOpenSpace` strategy 3: grid scan of a 600×400 region at step 20,
scored by distance from ideal, a density penalty and a spacing bonus. -/
def openSpaceStrategy3 (o : Oracles) (existingNodes : List Node) (parentNode : Node)
    (nodeWidth nodeHeight : ℚ) (childIndex siblingCount : Nat) : Option Scored :=
  let bs := openBaseStaggerY childIndex
  let baseY := openBaseY parentNode nodeHeight
  let proposedX := openProposedX parentNode nodeWidth childIndex siblingCount
  let densityAt := fun (cx cy : Int) =>
    ((existingNodes.filter (fun n =>
      (⌊n.pos.x / 50⌋ - cx).natAbs ≤ 1 && (⌊n.pos.y / 50⌋ - cy).natAbs ≤ 1)).length : ℚ)
  bestScored ((List.range 30).flatMap (fun (i : Nat) =>
    (List.range 20).filterMap (fun (j : Nat) =>
      let x := (proposedX - 300) + 20 * (i : ℚ)
      let y := (baseY + bs) + 20 * (j : ℚ)
      if openGuardFail parentNode nodeHeight y ||
          openCollides existingNodes nodeWidth nodeHeight x y then none
      else
        let dist := o.sqrtQ ((x - proposedX) ^ 2 + (y - (baseY + bs)) ^ 2)
        let densityPenalty := densityAt ⌊x / 50⌋ ⌊y / 50⌋ * 20
        let spacingBonus :=
          match existingNodes.map (fun n => o.sqrtQ ((x - n.pos.x) ^ 2 + (y - n.pos.y) ^ 2)) with
          | [] => (50 : ℚ)
          | d :: ds => min 50 (max 0 (ds.foldl min d - 100))
        some (⟨x, y, dist + densityPenalty - spacingBonus⟩ : Scored))))

/-- The guaranteed fallback of `findOpenSpace` (lines 438-447): below both
the stagger-adjusted base position and the lowest existing node.
(`Math.max` of an empty spread is `-Infinity`, so with no existing nodes
only the first argument counts.) -/
def openSpaceFallback (existingNodes : List Node) (parentNode : Node)
    (nodeWidth nodeHeight : ℚ) (childIndex siblingCount : Nat) : Pos :=
  let bs := openBaseStaggerY childIndex
  let baseY := openBaseY parentNode nodeHeight
  let proposedX := openProposedX parentNode nodeWidth childIndex siblingCount
  let fallbackY :=
    match existingNodes.map (fun n => n.pos.y) with
    | [] => baseY + bs + nodeHeight * 3
    | y0 :: ys => max (baseY + bs + nodeHeight * 3) (ys.foldl max y0 + nodeHeight * 2)
  ⟨proposedX, fallbackY⟩

/-- `findOpenSpace(existingNodes, parentNode, nodeWidth, nodeHeight,
staggerOffset, childIndex, siblingCount)`.  The `staggerOffset` parameter is
accepted but, as in the source, never read (the body uses the module-level
`staggerY` constant). -/
def findOpenSpace (o : Oracles) (existingNodes : List Node) (parentNode : Node)
    (nodeWidth nodeHeight staggerOffset : ℚ) (childIndex siblingCount : Nat) : Pos :=
  match openSpaceStrategy1 existingNodes parentNode nodeWidth nodeHeight childIndex siblingCount with
  | some p => p
  | none =>
    match openSpaceStrategy2 o existingNodes parentNode nodeWidth nodeHeight childIndex siblingCount with
    | some s => ⟨s.x, s.y⟩
    | none =>
      match openSpaceStrategy3 o existingNodes parentNode nodeWidth nodeHeight childIndex siblingCount with
      | some s => ⟨s.x, s.y⟩
      | none => openSpaceFallback existingNodes parentNode nodeWidth nodeHeight childIndex siblingCount

/-- One entry of the `childrenData` batch handed to `findBulkSpace`. -/
structure ChildData where
  id : String
  width : ℚ
  height : ℚ
deriving DecidableEq, Repr

/-- `totalWidth` of the batch: widths plus inter-sibling gaps. -/
def bulkTotalWidth (childrenData : List ChildData) : ℚ :=
  (childrenData.map (·.width)).sum + xGapC * ((childrenData.length - 1 : Nat) : ℚ)

/-- `maxHeight = Math.max(...heights)`.  The empty-children case (where the
JavaScript value is `-Infinity`) is not modelled; every theorem below
assumes a non-empty batch, as at every call site. -/
def bulkMaxHeight (childrenData : List ChildData) : ℚ :=
  match childrenData with
  | [] => 0
  | c :: cs => (cs.map (·.height)).foldl max c.height

/-- `baseY = parent.y + max(yGap, maxHeight * 1.5)` of `findBulkSpace`. -/
def bulkBaseY (parentNode : Node) (childrenData : List ChildData) : ℚ :=
  parentNode.pos.y + max yGapC (bulkMaxHeight childrenData * (3/2))

/-- The collision test of every `findBulkSpace` candidate: the whole block
rectangle with its top-left corner at the candidate. -/
def bulkCollides (existingNodes : List Node) (childrenData : List ChildData)
    (minGap x y : ℚ) : Bool :=
  checkAreaCollision 100 existingNodes
    ⟨x, y, bulkTotalWidth childrenData, bulkMaxHeight childrenData⟩ minGap

/-- `findBulkSpace` strategy 1: four preferred positions (already listed in
priority order; the source's sort by priority is stable). -/
def bulkStrategy1 (existingNodes : List Node) (parentNode : Node)
    (childrenData : List ChildData) (minGap : ℚ) : Option Pos :=
  let totalWidth := bulkTotalWidth childrenData
  let maxHeight := bulkMaxHeight childrenData
  let baseX := parentNode.pos.x
  let baseY := bulkBaseY parentNode childrenData
  ([⟨baseX - totalWidth / 2, baseY⟩,
    ⟨baseX - totalWidth - minGap * 3, baseY⟩,
    ⟨baseX + minGap * 3, baseY⟩,
    ⟨baseX - totalWidth / 2, baseY + maxHeight + minGap * 3⟩] : List Pos).find?
    (fun p => !(bulkCollides existingNodes childrenData minGap p.x p.y))

/-- `findBulkSpace` strategy 2: spiral search (radius 30..500 step 30,
angle step π/8); the first non-colliding candidate wins. -/
def bulkStrategy2 (o : Oracles) (existingNodes : List Node) (parentNode : Node)
    (childrenData : List ChildData) (minGap : ℚ) : Option Pos :=
  let totalWidth := bulkTotalWidth childrenData
  let baseX := parentNode.pos.x
  let baseY := bulkBaseY parentNode childrenData
  (List.range 16).findSome? (fun (i : Nat) =>
    let radius : ℚ := 30 * ((i : ℚ) + 1)
    (List.range 16).findSome? (fun (k : Nat) =>
      let x := baseX + o.cosPi ((k : ℚ) / 8) * radius - totalWidth / 2
      let y := max baseY (baseY + o.sinPi ((k : ℚ) / 8) * radius)
      if bulkCollides existingNodes childrenData minGap x y then none
      else some (⟨x, y⟩ : Pos)))

/-- `findBulkSpace` strategy 3: grid scan of an 800×600 region at step 40,
scored by distance from the ideal position. -/
def bulkStrategy3 (o : Oracles) (existingNodes : List Node) (parentNode : Node)
    (childrenData : List ChildData) (minGap : ℚ) : Option Scored :=
  let totalWidth := bulkTotalWidth childrenData
  let baseX := parentNode.pos.x
  let baseY := bulkBaseY parentNode childrenData
  bestScored ((List.range 20).flatMap (fun (i : Nat) =>
    (List.range 15).filterMap (fun (j : Nat) =>
      let x := (baseX - 400) + 40 * (i : ℚ)
      let y := baseY + 40 * (j : ℚ)
      if bulkCollides existingNodes childrenData minGap x y then none
      else some (⟨x, y, o.sqrtQ ((x - (baseX - totalWidth / 2)) ^ 2 + (y - baseY) ^ 2)⟩ : Scored))))

/-- The final fallback of `findBulkSpace` (lines 244-262): a fixed offset
below the parent, shifted right past any node whose vertical band is near
the fallback line. -/
def bulkFallback (existingNodes : List Node) (parentNode : Node)
    (childrenData : List ChildData) (minGap : ℚ) : BoundingBox :=
  let totalWidth := bulkTotalWidth childrenData
  let maxHeight := bulkMaxHeight childrenData
  let baseX := parentNode.pos.x
  let baseY := bulkBaseY parentNode childrenData
  let fallbackY := baseY + maxHeight * 3 + minGap * 5
  let maxRight := existingNodes.foldl (fun mr n =>
    let nodeRight := n.pos.x + estimateNodeWidth n.label / 2
    if mr < nodeRight ∧ |n.pos.y - fallbackY| < maxHeight + minGap then nodeRight + minGap * 2
    else mr) (baseX + totalWidth / 2)
  ⟨max (baseX - totalWidth / 2) (maxRight - totalWidth), fallbackY, totalWidth, maxHeight⟩

/-- `findBulkSpace(existingNodes, parentNode, childrenData, minGap)`.  The
returned rectangle's `x`/`y` is its top-left corner. -/
def findBulkSpace (o : Oracles) (existingNodes : List Node) (parentNode : Node)
    (childrenData : List ChildData) (minGap : ℚ) : BoundingBox :=
  let totalWidth := bulkTotalWidth childrenData
  let maxHeight := bulkMaxHeight childrenData
  match bulkStrategy1 existingNodes parentNode childrenData minGap with
  | some p => ⟨p.x, p.y, totalWidth, maxHeight⟩
  | none =>
    match bulkStrategy2 o existingNodes parentNode childrenData minGap with
    | some p => ⟨p.x, p.y, totalWidth, maxHeight⟩
    | none =>
      match bulkStrategy3 o existingNodes parentNode childrenData minGap with
      | some s => ⟨s.x, s.y, totalWidth, maxHeight⟩
      | none => bulkFallback existingNodes parentNode childrenData minGap

/-! ### Tree layout engine (`assignStaggeredTreePositions` / `placeSubtree`,
MindMap.tsx lines 520-626).

`idToNode` is an association list with JavaScript object semantics; the
recursion is bounded by an explicit stack-depth fuel (the JavaScript
recursion is unbounded).  A `placeSubtree` call on an id that is not a node
leaves the state unchanged (the source would throw there; no call site of
the claims exercises it). -/

/-- `nodeLabel(id) = idToNode[id]?.data?.label || ""`. -/
def nodeLabelOf (st : List (String × Node)) (id : String) : String :=
  ((lookupA st id).map (·.label)).getD ""

/-- `nodeWidth(id) = estimateNodeWidth(nodeLabel(id))`. -/
def nodeWidthOf (st : List (String × Node)) (id : String) : ℚ :=
  estimateNodeWidth (nodeLabelOf st id)

/-- `idToNode[id].position = p`. -/
def setPosA (st : List (String × Node)) (k : String) (p : Pos) : List (String × Node) :=
  st.map (fun q => if q.1 == k then (q.1, { q.2 with pos := p }) else q)

/-- The per-child placement loop used when some child has a stored user
position (lines 562-596); `rec` is the recursive `placeSubtree` call at the
next depth. -/
def placeManualChildren (o : Oracles) (userPositions : String → Option Pos)
    (xGapP staggerP : ℚ) (parentId : String) (parentBottom : ℚ) (children : List String)
    (rec : String → ℚ → ℚ → List (String × Node) → List (String × Node))
    (st : List (String × Node)) (x : ℚ) : List (String × Node) :=
  let totalChildrenWidth :=
    (children.map (fun cid => nodeWidthOf st cid)).sum + xGapP * ((children.length - 1 : Nat) : ℚ)
  let left0 := x - totalChildrenWidth / 2 + nodeWidthOf st (children.headD "") / 2
  (children.enum.foldl
    (fun (acc : ℚ × List (String × Node)) ic =>
      let left := acc.1
      let st := acc.2
      let i := ic.1
      let childId := ic.2
      match userPositions childId with
      | some mp => (left, rec childId mp.x mp.y st)
      | none =>
        let existing := (st.map (·.2)).filter
          (fun n => n.id != childId && !(children.contains n.id))
        let parentNode := (lookupA st parentId).getD ⟨parentId, "", ⟨0, 0⟩⟩
        let position := findOpenSpace o existing parentNode (nodeWidthOf st childId)
          minNodeHeightC staggerP i children.length
        let adjustedY := max position.y (parentBottom + minNodeHeightC / 2)
        let st := rec childId position.x adjustedY st
        (left + nodeWidthOf st childId + xGapP, st))
    (left0, st)).2

/-- The bulk placement branch used when no child is pinned (lines 597-619). -/
def placeBulkChildren (o : Oracles) (xGapP : ℚ) (parentId : String) (parentBottom : ℚ)
    (children : List String) (childrenData : List ChildData)
    (rec : String → ℚ → ℚ → List (String × Node) → List (String × Node))
    (st : List (String × Node)) : List (String × Node) :=
  let existing := (st.map (·.2)).filter
    (fun n => !(children.contains n.id) && n.id != parentId)
  let parentNode := (lookupA st parentId).getD ⟨parentId, "", ⟨0, 0⟩⟩
  let bulkArea := findBulkSpace o existing parentNode childrenData minNodePadding
  (children.enum.foldl
    (fun (acc : ℚ × List (String × Node)) ic =>
      let currentX := acc.1
      let st := acc.2
      let i := ic.1
      let childId := ic.2
      let cd := (childrenData[i]?).getD ⟨childId, 0, 0⟩
      let adjustedY := max bulkArea.y (parentBottom + minNodeHeightC / 2)
      let childCenterX := currentX + cd.width / 2
      let st := rec childId childCenterX adjustedY st
      (currentX + cd.width + xGapP, st))
    (bulkArea.x, st)).2

/-- `placeSubtree(id, depth, x, y)` with explicit stack-depth fuel. -/
def placeSubtree (o : Oracles) (childMap : String → List String)
    (userPositions : String → Option Pos) (xGapP staggerP : ℚ) :
    Nat → String → ℚ → ℚ → List (String × Node) → List (String × Node)
  | 0, _, _, _, st => st
  | fuel + 1, id, x, y, st =>
    match lookupA st id with
    | none => st
    | some _ =>
      let children := childMap id
      let manual := userPositions id
      let newPos := manual.getD ⟨x, y⟩
      let st := setPosA st id newPos
      if children.isEmpty then st
      else
        let parentBottom := newPos.y + minNodeHeightC / 2
        let childrenData := children.map
          (fun cid => (⟨cid, nodeWidthOf st cid, estimateNodeHeight⟩ : ChildData))
        let hasManual := children.any (fun cid => (userPositions cid).isSome)
        if hasManual then
          placeManualChildren o userPositions xGapP staggerP id parentBottom children
            (fun c cx cy cst => placeSubtree o childMap userPositions xGapP staggerP fuel c cx cy cst)
            st x
        else
          placeBulkChildren o xGapP id parentBottom children childrenData
            (fun c cx cy cst => placeSubtree o childMap userPositions xGapP staggerP fuel c cx cy cst)
            st

/-- The id-keyed state after the tree walk of
`assignStaggeredTreePositions`: the node map seeded from `nodes`, run
through `placeSubtree` when the root exists. -/
def assignStaggeredSt (o : Oracles) (nodes : List Node) (edges : List Edge)
    (rootId : String) (startX startY xGapP staggerP : ℚ)
    (userPositions : String → Option Pos) (fuel : Nat) : List (String × Node) :=
  let childMap := getChildMap edges
  let st := fromEntriesJS (nodes.map (fun n => (n.id, n)))
  if (lookupA st rootId).isSome
  then placeSubtree o childMap userPositions xGapP staggerP fuel rootId startX startY st
  else st

/-- `assignStaggeredTreePositions(nodes, edges, rootId, startX, startY,
xGap, yGap, staggerY, userPositions)`; `yGap` is accepted but never read,
as in the source.  The returned list is the value column of the id-keyed
state `assignStaggeredSt`. -/
def assignStaggeredTreePositions (o : Oracles) (nodes : List Node) (edges : List Edge)
    (rootId : String) (startX startY xGapP yGapP staggerP : ℚ)
    (userPositions : String → Option Pos) (fuel : Nat) : List Node :=
  (assignStaggeredSt o nodes edges rootId startX startY xGapP staggerP
    userPositions fuel).map (·.2)

/-! ### One automatic layout pass (`handleExpandClick`, MindMap.tsx lines
1019-1060): staggered tree layout of the merged graph, overlap resolution
restricted to the nodes without a stored position, and—only when the
validation still finds overlapping pairs—a final resolver run over *all*
nodes. -/

def layoutPass (o : Oracles) (mergedNodes : List Node) (mergedEdges : List Edge)
    (existingPositions : String → Option Pos) (fuel : Nat) : List Node :=
  let mainNodeId := ((mergedNodes.head?).map (·.id)).getD "main"
  let positioned := assignStaggeredTreePositions o mergedNodes mergedEdges mainNodeId
    startXC startYC xGapC yGapC staggerYC existingPositions fuel
  let nodesToResolve := positioned.filter (fun n => (existingPositions n.id).isNone)
  let positioned :=
    if nodesToResolve.isEmpty then positioned
    else
      let resolved := resolveNodeOverlapsBoundingBox o.sqrtQ nodesToResolve minNodePadding 50
      positioned.map (fun n =>
        if (existingPositions n.id).isSome then n
        else (resolved.find? (fun rn => rn.id == n.id)).getD n)
  if validateHasOverlaps positioned minNodePadding then
    resolveNodeOverlapsBoundingBox o.sqrtQ positioned minNodePadding 25
  else positioned

/-! ### Derived notions and concrete instances used by the theorems -/

/-- The invariant of every id-keyed map built by the merge engine: keys are
pairwise distinct and each value's id is its key. -/
def GoodMap (key : α → String) (m : List (String × α)) : Prop :=
  (m.map Prod.fst).Nodup ∧ ∀ p ∈ m, key p.2 = p.1

/-- The canonical map underlying `mergeById key prev new`. -/
def mergedMap (key : α → String) (prev new_ : List α) : List (String × α) :=
  addNewById key (fromEntriesJS (prev.map (fun a => (key a, a)))) new_

/-- The two-node cycle used for claim C5. -/
def cycEdges : List Edge := [⟨"e1", "A", "B"⟩, ⟨"e2", "B", "A"⟩]

/-- The frame property of claim C2, between an input node map `st` and an
output node map `st'`: every node pinned by the user-position map either
carries exactly its stored position in `st'`, or its entry is untouched. -/
def PinnedPreserved (up : String → Option Pos) (st st' : List (String × Node)) : Prop :=
  ∀ k q, up k = some q →
    ((∃ n, lookupA st' k = some n ∧ n.pos = q) ∨ lookupA st' k = lookupA st k)

/-- Claim C2's concrete canvas: a pinned root `R` at the origin and a
pinned node `S` 4 pixels below it, overlapping it. -/
def c2Nodes : List Node := [⟨"R", "R", ⟨0, 0⟩⟩, ⟨"S", "S", ⟨0, 4⟩⟩]

/-- Claim C2's edge list: none — both nodes stand alone. -/
def c2Edges : List Edge := []

/-- Claim C2's user-position map: `R` and `S` are pinned where they stand. -/
def c2Up : String → Option Pos := fun k =>
  if k = "R" then some ⟨0, 0⟩ else if k = "S" then some ⟨0, 4⟩ else none

/-- A parent at the origin (claim C7). -/
def c7Parent : Node := ⟨"p", "p", ⟨0, 0⟩⟩

/-- Sixteen wide nodes stacked in 40-pixel rows below `c7Parent` (claim C7):
their 80-character labels give each an estimated footprint 760 wide, so
together they wall off the whole search region of `findBulkSpace`. -/
def c7Blockers : List Node :=
  (List.range 16).map (fun k =>
    ⟨"b" ++ toString k, String.mk (List.replicate 80 'a'), ⟨0, 110 + 40 * (k : ℚ)⟩⟩)

/-- The one-child batch handed to `findBulkSpace` in claim C7: a single
200-pixel-wide block, too wide to slip past the blocker wall anywhere the
strategies look. -/
def c7Children : List ChildData := [⟨"c", 200, 30⟩]

/-! ## Theorems -/

/-! ### Generic association-list lemmas -/

theorem lookupA_nil (k : String) : lookupA ([] : List (String × α)) k = none := rfl

theorem lookupA_cons (p : String × α) (t : List (String × α)) (k : String) :
    lookupA (p :: t) k = if p.1 == k then some p.2 else lookupA t k := by
  by_cases h : p.1 == k <;> simp [lookupA, List.find?, h]

theorem hasKey_nil (k : String) : hasKey ([] : List (String × α)) k = false := rfl

theorem hasKey_cons (p : String × α) (t : List (String × α)) (k : String) :
    hasKey (p :: t) k = ((p.1 == k) || hasKey t k) := by
  simp [hasKey]

theorem lookupA_append (m m' : List (String × α)) (k : String) :
    lookupA (m ++ m') k =
      match lookupA m k with
      | some v => some v
      | none => lookupA m' k := by
  induction m with
  | nil => simp [lookupA_nil]
  | cons p t ih =>
    by_cases h : p.1 == k <;> simp [lookupA_cons, h, ih]

theorem lookupA_eq_none_of_hasKey_false (m : List (String × α)) (k : String)
    (h : hasKey m k = false) : lookupA m k = none := by
  induction m with
  | nil => rfl
  | cons p t ih =>
    rw [hasKey_cons] at h
    rcases Bool.or_eq_false_iff.mp h with ⟨h1, h2⟩
    rw [lookupA_cons, h1]
    exact ih h2

theorem lookupA_replace_self (m : List (String × α)) (k : String) (v : α)
    (h : hasKey m k = true) :
    lookupA (m.map (fun p => if p.1 == k then (k, v) else p)) k = some v := by
  induction m with
  | nil => simp [hasKey_nil] at h
  | cons p t ih =>
    by_cases hp : (p.1 == k) = true
    · have hp' : p.1 = k := by simpa using hp
      subst hp'
      simp [lookupA_cons]
    · have hp' : (p.1 == k) = false := Bool.eq_false_iff.mpr hp
      rw [hasKey_cons, hp', Bool.false_or] at h
      simp only [List.map_cons, hp', Bool.false_eq_true, if_false, lookupA_cons]
      exact ih h

theorem lookupA_replace_other (m : List (String × α)) (k k' : String) (v : α)
    (hne : k' ≠ k) :
    lookupA (m.map (fun p => if p.1 == k then (k, v) else p)) k' = lookupA m k' := by
  induction m with
  | nil => rfl
  | cons p t ih =>
    by_cases hp : (p.1 == k) = true
    · have hp' : p.1 = k := by simpa using hp
      have hk : (k == k') = false := by
        simp only [beq_eq_false_iff_ne, ne_eq]
        exact fun hc => hne hc.symm
      have hk2 : (p.1 == k') = false := by rw [hp']; exact hk
      simp only [List.map_cons, hp, if_true, lookupA_cons, hk, hk2, Bool.false_eq_true,
        if_false]
      exact ih
    · have hp' : (p.1 == k) = false := Bool.eq_false_iff.mpr hp
      simp only [List.map_cons, hp', Bool.false_eq_true, if_false, lookupA_cons]
      rw [ih]

theorem lookupA_upsertA_self (m : List (String × α)) (k : String) (v : α) :
    lookupA (upsertA m k v) k = some v := by
  unfold upsertA
  by_cases h : hasKey m k
  · rw [if_pos h]
    exact lookupA_replace_self m k v h
  · rw [if_neg h, lookupA_append,
      lookupA_eq_none_of_hasKey_false m k (Bool.eq_false_iff.mpr h)]
    simp [lookupA_cons]

theorem lookupA_upsertA_other (m : List (String × α)) (k k' : String) (v : α)
    (hne : k' ≠ k) : lookupA (upsertA m k v) k' = lookupA m k' := by
  unfold upsertA
  by_cases h : hasKey m k
  · rw [if_pos h]
    exact lookupA_replace_other m k k' v hne
  · rw [if_neg h, lookupA_append]
    have : (k == k') = false := by
      simp only [beq_eq_false_iff_ne, ne_eq]
      exact fun hc => hne hc.symm
    cases hl : lookupA m k' with
    | some v' => rfl
    | none => simp [lookupA_cons, this, lookupA_nil]

theorem hasKey_iff_mem (m : List (String × α)) (k : String) :
    hasKey m k = true ↔ k ∈ m.map Prod.fst := by
  unfold hasKey
  rw [List.any_eq_true]
  constructor
  · rintro ⟨p, hp, he⟩
    exact List.mem_map.mpr ⟨p, hp, (by simpa using he)⟩
  · rintro hk
    rcases List.mem_map.mp hk with ⟨p, hp, he⟩
    exact ⟨p, hp, by simpa using he⟩

theorem hasKey_eq_false_iff (m : List (String × α)) (k : String) :
    hasKey m k = false ↔ k ∉ m.map Prod.fst := by
  rw [← Bool.not_eq_true, not_iff_not]
  exact hasKey_iff_mem m k

theorem upsertA_keys (m : List (String × α)) (k : String) (v : α) :
    (upsertA m k v).map Prod.fst =
      if hasKey m k then m.map Prod.fst else m.map Prod.fst ++ [k] := by
  unfold upsertA
  by_cases h : hasKey m k
  · rw [if_pos h, if_pos h, List.map_map]
    apply List.map_congr_left
    intro p _
    simp only [Function.comp_apply]
    by_cases hp : (p.1 == k) = true
    · have hp' : p.1 = k := by simpa using hp
      rw [if_pos hp]
      exact hp'.symm
    · rw [if_neg hp]
  · rw [if_neg h, if_neg h]
    simp

theorem goodMap_upsertA (key : α → String) (m : List (String × α)) (k : String) (v : α)
    (hm : GoodMap key m) (hv : key v = k) : GoodMap key (upsertA m k v) := by
  constructor
  · rw [upsertA_keys]
    by_cases h : hasKey m k
    · rw [if_pos h]; exact hm.1
    · rw [if_neg h]
      rw [List.nodup_append]
      refine ⟨hm.1, List.nodup_singleton k, ?_⟩
      intro a ha hb
      rw [List.mem_singleton] at hb
      exact (hasKey_eq_false_iff m k).mp (Bool.eq_false_iff.mpr h) (hb ▸ ha)
  · intro p hp
    unfold upsertA at hp
    by_cases h : hasKey m k
    · rw [if_pos h] at hp
      rcases List.mem_map.mp hp with ⟨q, hq, he⟩
      by_cases hqk : (q.1 == k) = true
      · rw [if_pos hqk] at he
        subst he
        exact hv
      · rw [if_neg hqk] at he
        subst he
        exact hm.2 q hq
    · rw [if_neg h] at hp
      rcases List.mem_append.mp hp with hp | hp
      · exact hm.2 p hp
      · rw [List.mem_singleton] at hp
        subst hp
        exact hv

theorem goodMap_fromEntries (key : α → String) (l : List α) :
    GoodMap key (fromEntriesJS (l.map (fun a => (key a, a)))) := by
  unfold fromEntriesJS
  suffices h : ∀ acc, GoodMap key acc →
      GoodMap key ((l.map (fun a => (key a, a))).foldl (fun m p => upsertA m p.1 p.2) acc) by
    exact h [] ⟨List.nodup_nil, by intro p hp; cases hp⟩
  induction l with
  | nil => intro acc ha; simpa using ha
  | cons a t ih =>
    intro acc ha
    simp only [List.map_cons, List.foldl_cons]
    exact ih _ (goodMap_upsertA key acc (key a) a ha rfl)

theorem goodMap_addNew (key : α → String) (m : List (String × α)) (new_ : List α)
    (hm : GoodMap key m) : GoodMap key (addNewById key m new_) := by
  unfold addNewById
  induction new_ generalizing m with
  | nil => simpa using hm
  | cons a t ih =>
    simp only [List.foldl_cons]
    apply ih
    by_cases h : hasKey m (key a)
    · rwa [if_pos h]
    · rw [if_neg h]
      constructor
      · rw [List.map_append, List.nodup_append]
        refine ⟨hm.1, by simp, ?_⟩
        intro b hb hc
        simp only [List.map_cons, List.map_nil, List.mem_singleton] at hc
        subst hc
        exact (hasKey_eq_false_iff m (key a)).mp (Bool.eq_false_iff.mpr h) hb
      · intro p hp
        rcases List.mem_append.mp hp with hp | hp
        · exact hm.2 p hp
        · rw [List.mem_singleton] at hp
          subst hp
          rfl

theorem hasKey_append (m m' : List (String × α)) (k : String) :
    hasKey (m ++ m') k = (hasKey m k || hasKey m' k) := by
  unfold hasKey
  exact List.any_append

theorem hasKey_addNew_mono (key : α → String) (m : List (String × α)) (new_ : List α)
    (k : String) (h : hasKey m k = true) : hasKey (addNewById key m new_) k = true := by
  unfold addNewById
  induction new_ generalizing m with
  | nil => simpa using h
  | cons a t ih =>
    simp only [List.foldl_cons]
    apply ih
    by_cases ha : hasKey m (key a)
    · rwa [if_pos ha]
    · rw [if_neg ha, hasKey_append, h, Bool.true_or]

theorem hasKey_addNew_new (key : α → String) (m : List (String × α)) (new_ : List α) :
    ∀ a ∈ new_, hasKey (addNewById key m new_) (key a) = true := by
  unfold addNewById
  induction new_ generalizing m with
  | nil => intro a ha; cases ha
  | cons b t ih =>
    intro a ha
    simp only [List.foldl_cons]
    rcases List.mem_cons.mp ha with ha | ha
    · subst ha
      by_cases hb : hasKey m (key a)
      · rw [if_pos hb]
        exact hasKey_addNew_mono key m t (key a) hb
      · rw [if_neg hb]
        apply hasKey_addNew_mono
        rw [hasKey_append, hasKey_cons]
        simp
    · exact ih _ a ha

theorem addNew_skip_all (key : α → String) (m : List (String × α)) (new_ : List α)
    (h : ∀ a ∈ new_, hasKey m (key a) = true) : addNewById key m new_ = m := by
  unfold addNewById
  induction new_ generalizing m with
  | nil => rfl
  | cons a t ih =>
    simp only [List.foldl_cons, if_pos (h a (by simp))]
    exact ih m (fun b hb => h b (by simp [hb]))

theorem addNew_eq_append (key : α → String) (m : List (String × α)) (new_ : List α) :
    ∃ t, addNewById key m new_ = m ++ t := by
  unfold addNewById
  induction new_ generalizing m with
  | nil => exact ⟨[], by simp⟩
  | cons a t ih =>
    simp only [List.foldl_cons]
    by_cases h : hasKey m (key a)
    · rw [if_pos h]
      exact ih m
    · rw [if_neg h]
      rcases ih (m ++ [(key a, a)]) with ⟨t', ht⟩
      exact ⟨(key a, a) :: t', by simpa using ht⟩

theorem fromEntries_aux (m : List (String × α)) : ∀ acc : List (String × α),
    ((acc ++ m).map Prod.fst).Nodup →
      m.foldl (fun m p => upsertA m p.1 p.2) acc = acc ++ m := by
  induction m with
  | nil => intro acc _; simp
  | cons p t ih =>
    intro acc hacc
    simp only [List.foldl_cons]
    have hnk : hasKey acc p.1 = false := by
      rw [hasKey_eq_false_iff]
      intro hmem
      rw [List.map_append, List.nodup_append] at hacc
      exact hacc.2.2 hmem (by simp)
    have hup : upsertA acc p.1 p.2 = acc ++ [p] := by
      unfold upsertA
      rw [if_neg (by rw [hnk]; exact Bool.false_ne_true)]
    rw [hup]
    have h2 := ih (acc ++ [p]) (by simpa using hacc)
    simpa using h2

theorem fromEntries_of_nodup (m : List (String × α))
    (h : (m.map Prod.fst).Nodup) : fromEntriesJS m = m := by
  unfold fromEntriesJS
  exact fromEntries_aux m [] (by simpa using h)

theorem goodMap_mergedMap (key : α → String) (prev new_ : List α) :
    GoodMap key (mergedMap key prev new_) :=
  goodMap_addNew key _ new_ (goodMap_fromEntries key prev)

theorem mergeById_entries (key : α → String) (prev new_ : List α) :
    (mergeById key prev new_).map (fun a => (key a, a)) = mergedMap key prev new_ := by
  unfold mergeById
  rw [List.map_map]
  show (mergedMap key prev new_).map ((fun a => (key a, a)) ∘ (fun p : String × α => p.2))
      = mergedMap key prev new_
  have hpt : ∀ p ∈ mergedMap key prev new_,
      ((fun a => (key a, a)) ∘ (fun p : String × α => p.2)) p = id p := by
    intro p hp
    simp only [Function.comp_apply, id_eq]
    have h2 := (goodMap_mergedMap key prev new_).2 p hp
    calc ((key p.2, p.2) : String × α) = (p.1, p.2) := by rw [h2]
      _ = p := rfl
  rw [List.map_congr_left hpt, List.map_id]

theorem mergeById_idem (key : α → String) (prev new_ : List α) :
    mergeById key (mergeById key prev new_) new_ = mergeById key prev new_ := by
  conv_lhs => rw [mergeById]
  rw [mergeById_entries, fromEntries_of_nodup _ (goodMap_mergedMap key prev new_).1]
  rw [show addNewById key (mergedMap key prev new_) new_ = mergedMap key prev new_ from
    addNew_skip_all key _ new_ (fun a ha => hasKey_addNew_new key _ new_ a ha)]
  rfl

theorem find?_append_of_found (l1 l2 : List α) (p : α → Bool)
    (h : (l1.find? p).isSome = true) : (l1 ++ l2).find? p = l1.find? p := by
  induction l1 with
  | nil => simp at h
  | cons a t ih =>
    by_cases hp : p a
    · rw [List.cons_append, List.find?_cons_of_pos _ hp, List.find?_cons_of_pos _ hp]
    · rw [List.cons_append, List.find?_cons_of_neg _ hp, List.find?_cons_of_neg _ hp]
      rw [List.find?_cons_of_neg _ hp] at h
      exact ih h

theorem mergeById_skip_preserves (key : α → String) (prev new_ : List α)
    (hnd : (prev.map key).Nodup) (a : α) (_ : a ∈ new_)
    (hex : ∃ p ∈ prev, key p = key a) :
    (mergeById key prev new_).find? (fun b => key b == key a)
      = prev.find? (fun b => key b == key a) := by
  have hkeys : ((prev.map (fun b => (key b, b))).map Prod.fst).Nodup := by
    rw [List.map_map]
    simpa [Function.comp_def] using hnd
  unfold mergeById
  rw [fromEntries_of_nodup _ hkeys]
  rcases addNew_eq_append key (prev.map (fun b => (key b, b))) new_ with ⟨t, ht⟩
  rw [ht, List.map_append]
  have hprev : (prev.map (fun b => (key b, b))).map (·.2) = prev := by
    rw [List.map_map]
    simp [Function.comp_def]
  rw [hprev]
  apply find?_append_of_found
  rcases hex with ⟨p, hp, hkp⟩
  rw [List.find?_isSome]
  exact ⟨p, hp, by simpa using hkp⟩

theorem mergeById_ids_nodup (key : α → String) (prev new_ : List α) :
    ((mergeById key prev new_).map key).Nodup := by
  have hgood := goodMap_mergedMap key prev new_
  unfold mergeById
  rw [List.map_map]
  have heq : (addNewById key (fromEntriesJS (prev.map (fun a => (key a, a)))) new_).map
      (key ∘ (fun p : String × α => p.2)) = (mergedMap key prev new_).map Prod.fst := by
    apply List.map_congr_left
    intro p hp
    exact hgood.2 p hp
  rw [heq]
  exact hgood.1

/-- C8: the append-new-only merge is idempotent — merging the same generated
subgraph a second time returns exactly the same node and edge lists — and,
when the previous ids are pairwise distinct, a new node or edge whose id
already exists is skipped, leaving the previously stored element as the one
found under that id. -/
theorem mergeNodesEdges_idempotent (prevNodes : List Node) (prevEdges : List Edge)
    (newNodes : List Node) (newEdges : List Edge)
    (hn : (prevNodes.map Node.id).Nodup) (he : (prevEdges.map Edge.id).Nodup) :
    (mergeNodesEdges (mergeNodesEdges prevNodes prevEdges newNodes newEdges).nodes
        (mergeNodesEdges prevNodes prevEdges newNodes newEdges).edges newNodes newEdges
      = mergeNodesEdges prevNodes prevEdges newNodes newEdges) ∧
    (∀ n ∈ newNodes, (∃ p ∈ prevNodes, p.id = n.id) →
      (mergeNodesEdges prevNodes prevEdges newNodes newEdges).nodes.find?
          (fun a => a.id == n.id) = prevNodes.find? (fun a => a.id == n.id)) ∧
    (∀ e ∈ newEdges, (∃ p ∈ prevEdges, p.id = e.id) →
      (mergeNodesEdges prevNodes prevEdges newNodes newEdges).edges.find?
          (fun a => a.id == e.id) = prevEdges.find? (fun a => a.id == e.id)) := by
  refine ⟨?_, ?_, ?_⟩
  · unfold mergeNodesEdges
    simp only [Flow.mk.injEq]
    constructor
    · exact mergeById_idem Node.id prevNodes newNodes
    · exact mergeById_idem Edge.id prevEdges newEdges
  · intro n hn' hex
    exact mergeById_skip_preserves Node.id prevNodes newNodes hn n hn' hex
  · intro e he' hex
    exact mergeById_skip_preserves Edge.id prevEdges newEdges he e he' hex

/-- C8 (witness): both hypotheses discharged on a concrete graph. -/
theorem mergeNodesEdges_idempotent_witness :
    mergeNodesEdges
        (mergeNodesEdges [⟨"r", "root", ⟨0, 0⟩⟩] [] [⟨"a", "child", ⟨1, 1⟩⟩] [⟨"e", "r", "a"⟩]).nodes
        (mergeNodesEdges [⟨"r", "root", ⟨0, 0⟩⟩] [] [⟨"a", "child", ⟨1, 1⟩⟩] [⟨"e", "r", "a"⟩]).edges
        [⟨"a", "child", ⟨1, 1⟩⟩] [⟨"e", "r", "a"⟩]
      = mergeNodesEdges [⟨"r", "root", ⟨0, 0⟩⟩] [] [⟨"a", "child", ⟨1, 1⟩⟩] [⟨"e", "r", "a"⟩] :=
  (mergeNodesEdges_idempotent [⟨"r", "root", ⟨0, 0⟩⟩] [] [⟨"a", "child", ⟨1, 1⟩⟩]
    [⟨"e", "r", "a"⟩] (by decide) (by decide)).1

/-- C9 (counterexample): under the replace-children policy a generated node
whose id collides with a *retained* node (here the expanded node "X"
itself) is not resolved: both survive and the output node list carries the
id "X" twice. -/
theorem mergeExpanded_duplicate_id_counterexample :
    ¬ (((mergeExpandedNodesAndEdges [⟨"X", "old", ⟨0, 0⟩⟩] []
          [⟨"X", "fresh", ⟨1, 1⟩⟩] [] "X").nodes.map Node.id).Nodup) := by
  decide

/-- C9 (amended): the append-new-only merge always returns pairwise-distinct
node and edge ids (id collisions are skipped), and the replace-children
merge returns pairwise-distinct node ids provided every generated id that
collides with a previous node id belongs to the removed direct children; a
collision with a retained node is *not* resolved (see the
counterexample). -/
theorem merge_id_distinctness (prevNodes : List Node) (prevEdges : List Edge)
    (newNodes : List Node) (newEdges : List Edge) (X : String)
    (hp : (prevNodes.map Node.id).Nodup) (hn : (newNodes.map Node.id).Nodup)
    (hdisj : ∀ n ∈ newNodes, ∀ p ∈ prevNodes, p.id = n.id →
      p.id ∈ oldChildrenIds prevEdges X) :
    (((mergeNodesEdges prevNodes prevEdges newNodes newEdges).nodes.map Node.id).Nodup ∧
      ((mergeNodesEdges prevNodes prevEdges newNodes newEdges).edges.map Edge.id).Nodup) ∧
    ((mergeExpandedNodesAndEdges prevNodes prevEdges newNodes newEdges X).nodes.map
      Node.id).Nodup := by
  refine ⟨⟨mergeById_ids_nodup Node.id prevNodes newNodes,
           mergeById_ids_nodup Edge.id prevEdges newEdges⟩, ?_⟩
  show ((prevNodes.filter (fun n => !((oldChildrenIds prevEdges X).contains n.id))
      ++ newNodes).map Node.id).Nodup
  rw [List.map_append, List.nodup_append]
  refine ⟨hp.sublist (List.Sublist.map _ (List.filter_sublist _)), hn, ?_⟩
  intro x hx hx2
  rcases List.mem_map.mp hx with ⟨p, hpmem, hpe⟩
  rcases List.mem_map.mp hx2 with ⟨n, hnmem, hne⟩
  rcases List.mem_filter.mp hpmem with ⟨hpprev, hpfilt⟩
  have hcoll : p.id = n.id := hpe.trans hne.symm
  have hmem := hdisj n hnmem p hpprev hcoll
  have helem : (oldChildrenIds prevEdges X).contains p.id = true :=
    List.elem_eq_true_of_mem hmem
  rw [helem] at hpfilt
  simp at hpfilt

/-- C9 (witness): both policies applied to a concrete graph with all three
hypotheses discharged. -/
theorem merge_id_distinctness_witness :
    (((mergeNodesEdges [⟨"r", "", ⟨0, 0⟩⟩, ⟨"c", "", ⟨0, 1⟩⟩] [⟨"e1", "r", "c"⟩]
        [⟨"d", "", ⟨2, 2⟩⟩] [⟨"e2", "c", "d"⟩]).nodes.map Node.id).Nodup ∧
      ((mergeNodesEdges [⟨"r", "", ⟨0, 0⟩⟩, ⟨"c", "", ⟨0, 1⟩⟩] [⟨"e1", "r", "c"⟩]
        [⟨"d", "", ⟨2, 2⟩⟩] [⟨"e2", "c", "d"⟩]).edges.map Edge.id).Nodup) ∧
    ((mergeExpandedNodesAndEdges [⟨"r", "", ⟨0, 0⟩⟩, ⟨"c", "", ⟨0, 1⟩⟩] [⟨"e1", "r", "c"⟩]
        [⟨"d", "", ⟨2, 2⟩⟩] [⟨"e2", "c", "d"⟩] "r").nodes.map Node.id).Nodup :=
  merge_id_distinctness [⟨"r", "", ⟨0, 0⟩⟩, ⟨"c", "", ⟨0, 1⟩⟩] [⟨"e1", "r", "c"⟩]
    [⟨"d", "", ⟨2, 2⟩⟩] [⟨"e2", "c", "d"⟩] "r" (by decide) (by decide) (by decide)

/-! ### C3: dragging a node carries exactly its descendant set -/

theorem jsNodeByIdLast_self (nds : List Node) (hids : (nds.map Node.id).Nodup)
    (n : Node) (hn : n ∈ nds) : jsNodeByIdLast nds n.id = some n := by
  unfold jsNodeByIdLast
  cases hf : nds.reverse.find? (fun m => m.id == n.id) with
  | none =>
    exact absurd (List.find?_eq_none.mp hf n (List.mem_reverse.mpr hn)) (by simp)
  | some m =>
    have hmid : m.id = n.id := by simpa using List.find?_some hf
    have hmem : m ∈ nds := List.mem_reverse.mp (List.mem_of_find?_eq_some hf)
    rw [List.inj_on_of_nodup_map hids hmem hn hmid]

/-- Characterisation of the queued position updates produced by the
descendant loop of one position change: each id in the cached descendant
list that names a present node ends up mapped to its old position shifted
by the drag delta; every other id keeps whatever the initial update map
said. -/
theorem queueFold_lookup (nds : List Node) (dx dy : ℚ) (ds : List String) :
    ∀ (u0 : List (String × Pos)) (k : String),
      lookupA (ds.foldl (dragStep nds dx dy) u0) k =
      (jsNodeByIdLast nds k).elim (lookupA u0 k)
        (fun dn => if k ∈ ds then some ⟨dn.pos.x + dx, dn.pos.y + dy⟩ else lookupA u0 k) := by
  induction ds with
  | nil =>
    intro u0 k
    cases jsNodeByIdLast nds k <;> simp
  | cons d t ih =>
    intro u0 k
    rw [List.foldl_cons, ih]
    cases hk0 : jsNodeByIdLast nds k with
    | none =>
      simp only [Option.elim_none]
      unfold dragStep
      cases hd : jsNodeByIdLast nds d with
      | none => rfl
      | some dn =>
        have hne : k ≠ d := fun he => by rw [he, hd] at hk0; cases hk0
        exact lookupA_upsertA_other _ d k _ hne
    | some dn =>
      simp only [Option.elim_some]
      by_cases hmem : k ∈ t
      · rw [if_pos hmem, if_pos (by simp [hmem])]
      · rw [if_neg hmem]
        by_cases hkd : k = d
        · subst hkd
          rw [if_pos (by simp)]
          unfold dragStep
          rw [hk0, lookupA_upsertA_self]
        · rw [if_neg (by simpa using ⟨fun h => hkd h, hmem⟩)]
          unfold dragStep
          cases hd : jsNodeByIdLast nds d with
          | none => rfl
          | some dn' => exact lookupA_upsertA_other _ d k _ hkd

/-- Unfolding equation of `queueChange` when the changed id names a node. -/
theorem queueChange_eq_of_found (descMap : String → List String) (nds : List Node)
    (upd : List (String × Pos)) (ch : PosChange) (node : Node)
    (h : jsNodeByIdLast nds ch.id = some node) :
    queueChange descMap nds upd ch =
      if ch.position.x - node.pos.x = 0 ∧ ch.position.y - node.pos.y = 0 then upd
      else (descMap ch.id).foldl
        (dragStep nds (ch.position.x - node.pos.x) (ch.position.y - node.pos.y))
        (upsertA upd ch.id ⟨node.pos.x + (ch.position.x - node.pos.x),
          node.pos.y + (ch.position.y - node.pos.y)⟩) := by
  unfold queueChange
  rw [h]

/-- C3: a single position change on node `X` with a defined new position
moves `X` to exactly that position, translates every cached descendant of
`X` present in the node list by exactly the same delta `(dx, dy)`, and
leaves every other node untouched — all within the single returned list. -/
theorem onNodesChange_translates_descendants
    (nds : List Node) (edges : List Edge) (fuel : Nat) (X : String) (p : Pos)
    (ds : List String) (nX : Node)
    (hids : (nds.map Node.id).Nodup)
    (hX : nX ∈ nds) (hXid : nX.id = X)
    (hds : getDescendantIds (getChildMap edges) fuel X = some ds) :
    ∀ (i : Nat) (n : Node), nds[i]? = some n →
      (onNodesChangePos (fun id => (getDescendantIds (getChildMap edges) fuel id).getD [])
        nds [⟨X, p⟩])[i]? =
      some (if n.id = X then { n with pos := p }
            else if n.id ∈ ds then
              { n with pos := ⟨n.pos.x + (p.x - nX.pos.x), n.pos.y + (p.y - nX.pos.y)⟩ }
            else n) := by
  intro i n hi
  have hnmem : n ∈ nds := by
    rcases List.getElem?_eq_some_iff.mp hi with ⟨hlt, hget⟩
    exact hget ▸ List.getElem_mem hlt
  have hlastX : jsNodeByIdLast nds X = some nX := hXid ▸ jsNodeByIdLast_self nds hids nX hX
  unfold onNodesChangePos
  rw [List.getElem?_map, hi, Option.map_some']
  congr 1
  have hdX : (fun id => (getDescendantIds (getChildMap edges) fuel id).getD []) X = ds := by
    simp [hds]
  simp only [List.foldl_cons, List.foldl_nil]
  rw [queueChange_eq_of_found _ nds [] ⟨X, p⟩ nX hlastX]
  simp only [hdX]
  by_cases hzero : p.x - nX.pos.x = 0 ∧ p.y - nX.pos.y = 0
  · rw [if_pos hzero, lookupA_nil]
    simp only [Option.elim_none]
    have hpx : p.x = nX.pos.x := by linarith [hzero.1]
    have hpy : p.y = nX.pos.y := by linarith [hzero.2]
    have hp : p = nX.pos := by
      cases p
      cases hnp : nX.pos
      rw [hnp] at hpx hpy
      simp_all
    by_cases h1 : n.id = X
    · have hn' : n = nX := List.inj_on_of_nodup_map hids hnmem hX (h1.trans hXid.symm)
      rw [if_pos h1, hn', hp]
    · rw [if_neg h1]
      by_cases h2 : n.id ∈ ds
      · rw [if_pos h2, hzero.1, hzero.2]
        simp
      · rw [if_neg h2]
  · rw [if_neg hzero]
    rw [queueFold_lookup nds (p.x - nX.pos.x) (p.y - nX.pos.y) ds
      (upsertA [] X ⟨nX.pos.x + (p.x - nX.pos.x), nX.pos.y + (p.y - nX.pos.y)⟩) n.id]
    have hlast : jsNodeByIdLast nds n.id = some n := jsNodeByIdLast_self nds hids n hnmem
    rw [hlast]
    simp only [Option.elim_some]
    by_cases h2 : n.id ∈ ds
    · rw [if_pos h2]
      simp only [Option.elim_some]
      by_cases h1 : n.id = X
      · have hn' : n = nX := List.inj_on_of_nodup_map hids hnmem hX (h1.trans hXid.symm)
        rw [if_pos h1]
        congr 1
        rw [hn']
        cases p
        simp only [Pos.mk.injEq]
        constructor <;> ring
      · rw [if_neg h1, if_pos h2]
    · rw [if_neg h2]
      by_cases h1 : n.id = X
      · have hn' : n = nX := List.inj_on_of_nodup_map hids hnmem hX (h1.trans hXid.symm)
        rw [h1, lookupA_upsertA_self]
        simp only [Option.elim_some]
        simp only [if_true]
        congr 1
        cases p
        simp only [Pos.mk.injEq]
        constructor <;> ring
      · rw [lookupA_upsertA_other _ X n.id _ h1, lookupA_nil]
        simp only [Option.elim_none]
        rw [if_neg h1, if_neg h2]

/-- C3 (witness): a concrete two-node drag, all hypotheses discharged. -/
theorem onNodesChange_translates_descendants_witness :
    (onNodesChangePos
      (fun id => (getDescendantIds (getChildMap [⟨"e", "r", "c"⟩]) 3 id).getD [])
      [⟨"r", "", ⟨0, 0⟩⟩, ⟨"c", "", ⟨5, 5⟩⟩] [⟨"r", ⟨10, 20⟩⟩])[0]? =
      some (if ("r" : String) = "r" then ({ id := "r", label := "", pos := ⟨10, 20⟩ } : Node)
            else if ("r" : String) ∈ ["c"] then
              { id := "r", label := "", pos := ⟨0 + (10 - 0), 0 + (20 - 0)⟩ }
            else ⟨"r", "", ⟨0, 0⟩⟩) := by
  have h := onNodesChange_translates_descendants
    [⟨"r", "", ⟨0, 0⟩⟩, ⟨"c", "", ⟨5, 5⟩⟩] [⟨"e", "r", "c"⟩] 3 "r" ⟨10, 20⟩
    ["c"] ⟨"r", "", ⟨0, 0⟩⟩ (by decide) (by decide) rfl (by decide)
    0 ⟨"r", "", ⟨0, 0⟩⟩ rfl
  simpa using h

/-! ### C1: the overlap resolver and the minimum gap -/

theorem xOverlapOf_comm (g : ℚ) (a b : RBox) : xOverlapOf g a b = xOverlapOf g b a := by
  unfold xOverlapOf
  rw [min_comm (a.x + a.w + g), max_comm a.x]

theorem yOverlapOf_comm (g : ℚ) (a b : RBox) : yOverlapOf g a b = yOverlapOf g b a := by
  unfold yOverlapOf
  rw [min_comm (a.y + a.h + g), max_comm a.y]

theorem overlapCond_comm (g : ℚ) (a b : RBox) : overlapCond g a b = overlapCond g b a := by
  unfold overlapCond
  rw [xOverlapOf_comm, yOverlapOf_comm]

theorem foldl_fixed (l : List β) (f : α → β → α) (a : α)
    (h : ∀ x ∈ l, f a x = a) : l.foldl f a = a := by
  induction l with
  | nil => rfl
  | cons x t ih =>
    rw [List.foldl_cons, h x (by simp)]
    exact ih (fun y hy => h y (by simp [hy]))

theorem mem_pairIndices (n : Nat) (p : Nat × Nat) :
    p ∈ pairIndices n ↔ p.1 < p.2 ∧ p.2 < n := by
  unfold pairIndices
  simp only [List.mem_flatMap, List.mem_map, List.mem_range]
  constructor
  · rintro ⟨i, hi, k, hk, rfl⟩
    simp only
    omega
  · rintro ⟨h1, h2⟩
    refine ⟨p.1, by omega, ⟨p.2 - p.1 - 1, by omega, ?_⟩⟩
    cases p with
    | mk a b =>
      have hab : a + (b - a - 1) + 1 = b := by
        simp only at h1 h2
        omega
      rw [hab]

theorem lookupA_upsertA_eq (m : List (String × α)) (k k' : String) (v : α) :
    lookupA (upsertA m k v) k' = if k' = k then some v else lookupA m k' := by
  by_cases h : k' = k
  · rw [if_pos h, h, lookupA_upsertA_self]
  · rw [if_neg h, lookupA_upsertA_other _ _ _ _ h]

theorem allZero_foldUpsert : ∀ (boxes : List RBox) (m0 : List (String × Force)),
    (∀ k v, lookupA m0 k = some v → v = (⟨0, 0, 0⟩ : Force)) →
    ∀ k v, lookupA (boxes.foldl (fun m b => upsertA m b.n.id (⟨0, 0, 0⟩ : Force)) m0) k = some v →
      v = (⟨0, 0, 0⟩ : Force) := by
  intro boxes
  induction boxes with
  | nil => intro m0 h; simpa using h
  | cons b t ih =>
    intro m0 h
    simp only [List.foldl_cons]
    apply ih
    intro k v hkv
    rw [lookupA_upsertA_eq] at hkv
    by_cases hk : k = b.n.id
    · rw [if_pos hk] at hkv
      cases hkv
      rfl
    · rw [if_neg hk] at hkv
      exact h k v hkv

theorem applyForces_zero (mmn : Nat) (fs : List (String × Force))
    (hz : ∀ k v, lookupA fs k = some v → v = (⟨0, 0, 0⟩ : Force)) :
    ∀ (boxes : List RBox) (tm : Nat), applyForces mmn fs boxes tm = (boxes, tm, false) := by
  intro boxes
  induction boxes with
  | nil => intro tm; rfl
  | cons b t ih =>
    intro tm
    have hf : (lookupA fs b.n.id).getD ⟨0, 0, 0⟩ = (⟨0, 0, 0⟩ : Force) := by
      cases hl : lookupA fs b.n.id with
      | none => rfl
      | some v => simpa using hz _ _ hl
    simp only [applyForces, hf, ih tm, lt_self_iff_false, false_and, if_false]

theorem accumForces_no_overlap (sq : ℚ → ℚ) (minGap : ℚ) (boxes : List RBox)
    (fs : List (String × Force))
    (h : ∀ p ∈ pairIndices boxes.length,
      overlapCond minGap ((boxes[p.1]?).getD dummyRBox) ((boxes[p.2]?).getD dummyRBox) = false) :
    accumForces sq minGap boxes fs = fs := by
  unfold accumForces
  apply foldl_fixed
  intro p hp
  have hnone : pairForce sq minGap ((boxes[p.1]?).getD dummyRBox)
      ((boxes[p.2]?).getD dummyRBox) = none := by
    unfold pairForce
    rw [if_neg (by rw [h p hp]; exact Bool.false_ne_true)]
  simp [hnone]

theorem resolveIter_no_overlap (sq : ℚ → ℚ) (minGap : ℚ) (mmn : Nat)
    (boxes : List RBox) (tm : Nat)
    (h : ∀ p ∈ pairIndices boxes.length,
      overlapCond minGap ((boxes[p.1]?).getD dummyRBox) ((boxes[p.2]?).getD dummyRBox) = false) :
    resolveIter sq minGap mmn boxes tm = (boxes, tm, false) := by
  show applyForces mmn
    (accumForces sq minGap boxes
      (boxes.foldl (fun m b => upsertA m b.n.id (⟨0, 0, 0⟩ : Force)) []))
    boxes tm = (boxes, tm, false)
  rw [accumForces_no_overlap sq minGap boxes _ h]
  exact applyForces_zero mmn _
    (allZero_foldUpsert boxes [] (by intro k v hv; rw [lookupA_nil] at hv; cases hv)) boxes tm

theorem resolveLoop_no_overlap (sq : ℚ → ℚ) (minGap : ℚ) (mmn : Nat)
    (boxes : List RBox) (tm : Nat)
    (h : ∀ p ∈ pairIndices boxes.length,
      overlapCond minGap ((boxes[p.1]?).getD dummyRBox) ((boxes[p.2]?).getD dummyRBox) = false) :
    ∀ iters, resolveLoop sq minGap mmn iters boxes tm = boxes := by
  intro iters
  cases iters with
  | zero => rfl
  | succ n =>
    simp only [resolveLoop]
    rw [resolveIter_no_overlap sq minGap mmn boxes tm h]
    simp

theorem finalPass_no_overlap (minGap : ℚ) (boxes : List RBox)
    (h : ∀ p ∈ pairIndices boxes.length,
      overlapCond minGap ((boxes[p.1]?).getD dummyRBox) ((boxes[p.2]?).getD dummyRBox) = false) :
    finalPass minGap boxes = boxes := by
  unfold finalPass
  apply foldl_fixed
  intro p hp
  simp only [finalPassStep]
  rw [if_neg (by rw [h p hp]; exact Bool.false_ne_true)]

/-- C1 (amended): the resolver's overlap test (`xOverlap > minGap &&
yOverlap > minGap` on boxes pre-expanded by `minGap`) is exactly *raw*
intersection of the unexpanded footprints, so when no two footprints in the
input properly intersect the whole function — force loop, early exit and
final corrective pass included — returns the nodes unchanged (up to the
stable sort by y).  In particular pairs whose expanded-by-minimum-gap
footprints still overlap are returned as they came in: the claimed
expanded-gap invariant does not hold on the output (see the
counterexample). -/
theorem resolve_overlaps_no_raw_overlap_unchanged (sq : ℚ → ℚ) (nodes : List Node)
    (minGap : ℚ) (maxIters : Nat)
    (h : nodes.Pairwise (fun a b => overlapCond minGap (mkRBox a) (mkRBox b) = false)) :
    List.Perm (resolveNodeOverlapsBoundingBox sq nodes minGap maxIters) nodes := by
  unfold resolveNodeOverlapsBoundingBox
  by_cases he : nodes.isEmpty
  · rw [if_pos he]
  · rw [if_neg he]
    dsimp only
    have hperm : List.Perm (nodes.mergeSort (fun a b => a.pos.y ≤ b.pos.y)) nodes :=
      List.mergeSort_perm nodes _
    have hsym : ∀ {a b : Node},
        (fun a b : Node => overlapCond minGap (mkRBox a) (mkRBox b) = false) a b →
        (fun a b : Node => overlapCond minGap (mkRBox a) (mkRBox b) = false) b a := by
      intro a b hab
      rw [overlapCond_comm]
      exact hab
    have hsorted : (nodes.mergeSort (fun a b => a.pos.y ≤ b.pos.y)).Pairwise
        (fun a b => overlapCond minGap (mkRBox a) (mkRBox b) = false) :=
      (hperm.pairwise_iff hsym).mpr h
    have hpairs : ∀ p ∈ pairIndices ((nodes.mergeSort (fun a b => a.pos.y ≤ b.pos.y)).map
        mkRBox).length,
        overlapCond minGap
          ((((nodes.mergeSort (fun a b => a.pos.y ≤ b.pos.y)).map mkRBox)[p.1]?).getD dummyRBox)
          ((((nodes.mergeSort (fun a b => a.pos.y ≤ b.pos.y)).map mkRBox)[p.2]?).getD dummyRBox)
          = false := by
      intro p hp
      rcases (mem_pairIndices _ p).mp hp with ⟨h1, h2⟩
      rw [List.length_map] at h2
      have hi : p.1 < (nodes.mergeSort (fun a b => a.pos.y ≤ b.pos.y)).length :=
        lt_trans h1 h2
      rw [List.getElem?_map, List.getElem?_map,
        List.getElem?_eq_getElem hi, List.getElem?_eq_getElem h2]
      simp only [Option.map_some', Option.getD_some]
      exact List.pairwise_iff_get.mp hsorted ⟨p.1, hi⟩ ⟨p.2, h2⟩ h1
    rw [resolveLoop_no_overlap sq minGap _ _ 0 hpairs maxIters,
      finalPass_no_overlap minGap _ hpairs, List.map_map]
    have hid : (nodes.mergeSort (fun a b => a.pos.y ≤ b.pos.y)).map
        ((fun b : RBox => b.n) ∘ mkRBox) = nodes.mergeSort (fun a b => a.pos.y ≤ b.pos.y) := by
      rw [show ((fun b : RBox => b.n) ∘ mkRBox) = id from rfl, List.map_id]
    rw [hid]
    exact hperm

/-- C1 (witness for the amended theorem): two nodes one pixel apart do not
raw-overlap, so the resolver returns them unchanged. -/
theorem resolve_overlaps_no_raw_overlap_unchanged_witness :
    List.Perm (resolveNodeOverlapsBoundingBox sqrtQ [⟨"A", "", ⟨0, 0⟩⟩, ⟨"B", "", ⟨0, 31⟩⟩] 12 50)
      [⟨"A", "", ⟨0, 0⟩⟩, ⟨"B", "", ⟨0, 31⟩⟩] :=
  resolve_overlaps_no_raw_overlap_unchanged sqrtQ _ 12 50
    (by with_unfolding_all decide)

/-- C1 (counterexample): the same two nodes sit 1 px apart vertically —
closer than the minimum gap of 12, so their footprints expanded by the gap
overlap — yet `resolveNodeOverlapsBoundingBox` (final corrective pass
included) returns both positions unchanged: the claimed no-overlap
invariant fails on the output. -/
theorem resolve_overlaps_gap_counterexample :
    ((resolveNodeOverlapsBoundingBox sqrtQ [⟨"A", "", ⟨0, 0⟩⟩, ⟨"B", "", ⟨0, 31⟩⟩] 12 50).map
        (fun n => (n.id, n.pos)) = [("A", (⟨0, 0⟩ : Pos)), ("B", (⟨0, 31⟩ : Pos))]) ∧
    checkCollisionWithSpacing (nodeBox ⟨"A", "", ⟨0, 0⟩⟩) (nodeBox ⟨"B", "", ⟨0, 31⟩⟩) 12
      = true := by
  constructor
  · with_unfolding_all decide
  · with_unfolding_all decide

/-! ### C6: the space-finding search never places above the parent -/

theorem foldl_max_le_init (ys : List ℚ) : ∀ a b : ℚ, a ≤ b → a ≤ ys.foldl max b := by
  induction ys with
  | nil => intro a b h; simpa using h
  | cons y t ih =>
    intro a b h
    rw [List.foldl_cons]
    exact ih a (max b y) (le_trans h (le_max_left b y))

theorem mem_le_foldl_max (ys : List ℚ) : ∀ (b z : ℚ), z ∈ ys → z ≤ ys.foldl max b := by
  induction ys with
  | nil => intro b z h; cases h
  | cons y t ih =>
    intro b z hz
    rw [List.foldl_cons]
    rcases List.mem_cons.mp hz with h | h
    · subst h
      exact foldl_max_le_init t z (max b z) (le_max_right b z)
    · exact ih (max b y) z h

theorem pickBest_mem (t : List Scored) : ∀ a : Scored,
    t.foldl (fun a b => if a.score < b.score then a else b) a = a ∨
    t.foldl (fun a b => if a.score < b.score then a else b) a ∈ t := by
  induction t with
  | nil => intro a; exact Or.inl rfl
  | cons b t ih =>
    intro a
    rw [List.foldl_cons]
    by_cases hc : a.score < b.score
    · rw [if_pos hc]
      rcases ih a with h | h
      · exact Or.inl h
      · exact Or.inr (List.mem_cons_of_mem b h)
    · rw [if_neg hc]
      rcases ih b with h | h
      · rw [h]
        exact Or.inr (List.mem_cons_self b t)
      · exact Or.inr (List.mem_cons_of_mem b h)

theorem bestScored_mem (l : List Scored) (s : Scored) (h : bestScored l = some s) :
    s ∈ l := by
  cases l with
  | nil => cases h
  | cons a t =>
    simp only [bestScored, Option.some.injEq] at h
    rcases pickBest_mem t a with h2 | h2
    · rw [← h, h2]
      simp
    · rw [← h]
      simp [h2]

theorem bestScored_eq_none {l : List Scored} (h : bestScored l = none) : l = [] := by
  cases l with
  | nil => rfl
  | cons a t => simp [bestScored] at h

theorem if_none_some_eq {c : Bool} {v s : α} (h : (if c = true then none else some v) = some s) :
    c = false ∧ v = s := by
  by_cases hc : c = true
  · rw [if_pos hc] at h
    cases h
  · rw [if_neg hc] at h
    exact ⟨Bool.eq_false_iff.mpr hc, by injection h⟩

theorem if_some_none_eq {c : Bool} {v : α} (h : (if c = true then none else some v) = none) :
    c = true := by
  by_cases hc : c = true
  · exact hc
  · rw [if_neg hc] at h
    cases h

theorem estimateNodeHeight_eq : estimateNodeHeight = 30 := by
  unfold estimateNodeHeight minNodeHeightC
  norm_num

theorem nodeBox_y (n : Node) : (nodeBox n).y = n.pos.y - estimateNodeHeight / 2 := rfl

theorem nodeBox_height (n : Node) : (nodeBox n).height = estimateNodeHeight := rfl

theorem openS1_guard (existingNodes : List Node) (parentNode : Node)
    (nodeWidth nodeHeight : ℚ) (childIndex siblingCount : Nat) (p : Pos)
    (h : openSpaceStrategy1 existingNodes parentNode nodeWidth nodeHeight
      childIndex siblingCount = some p) :
    openGuardFail parentNode nodeHeight p.y = false := by
  unfold openSpaceStrategy1 at h
  have hfind := List.find?_some h
  simp only [Bool.and_eq_true, Bool.not_eq_true'] at hfind
  exact hfind.1

theorem openS2_guard (o : Oracles) (existingNodes : List Node) (parentNode : Node)
    (nodeWidth nodeHeight : ℚ) (childIndex siblingCount : Nat) (s : Scored)
    (h : openSpaceStrategy2 o existingNodes parentNode nodeWidth nodeHeight
      childIndex siblingCount = some s) :
    openGuardFail parentNode nodeHeight s.y = false := by
  unfold openSpaceStrategy2 at h
  rcases List.exists_of_findSome?_eq_some h with ⟨i, hi, hbest⟩
  rcases List.mem_filterMap.mp (bestScored_mem _ _ hbest) with ⟨k, hk, hf⟩
  rcases if_none_some_eq hf with ⟨hc, hv⟩
  rw [← hv]
  exact (Bool.or_eq_false_iff.mp hc).1

theorem openS3_guard (o : Oracles) (existingNodes : List Node) (parentNode : Node)
    (nodeWidth nodeHeight : ℚ) (childIndex siblingCount : Nat) (s : Scored)
    (h : openSpaceStrategy3 o existingNodes parentNode nodeWidth nodeHeight
      childIndex siblingCount = some s) :
    openGuardFail parentNode nodeHeight s.y = false := by
  unfold openSpaceStrategy3 at h
  rcases List.mem_flatMap.mp (bestScored_mem _ _ h) with ⟨i, hi, hmem⟩
  rcases List.mem_filterMap.mp hmem with ⟨j, hj, hf⟩
  rcases if_none_some_eq hf with ⟨hc, hv⟩
  rw [← hv]
  exact (Bool.or_eq_false_iff.mp hc).1

theorem openSpaceFallback_ge (existingNodes : List Node) (parentNode : Node)
    (nodeWidth nodeHeight : ℚ) (childIndex siblingCount : Nat) :
    ∀ n ∈ existingNodes,
      n.pos.y + nodeHeight * 2 ≤
        (openSpaceFallback existingNodes parentNode nodeWidth nodeHeight
          childIndex siblingCount).y := by
  intro n hn
  cases existingNodes with
  | nil => cases hn
  | cons e t =>
    show n.pos.y + nodeHeight * 2 ≤
      max (openBaseY parentNode nodeHeight + openBaseStaggerY childIndex + nodeHeight * 3)
        ((t.map (fun n => n.pos.y)).foldl max e.pos.y + nodeHeight * 2)
    have hle : n.pos.y ≤ (t.map (fun n => n.pos.y)).foldl max e.pos.y := by
      rcases List.mem_cons.mp hn with h | h
      · rw [h]
        exact foldl_max_le_init _ _ _ le_rfl
      · exact mem_le_foldl_max _ _ _ (List.mem_map.mpr ⟨n, h, rfl⟩)
    exact le_trans (by linarith) (le_max_right _ _)

/-- C6: every position returned by the space-finding search — `findOpenSpace`
and `findBulkSpace`, all strategies and both fallbacks — lies strictly below
the parent's vertical position.  Hypotheses: the sine oracle vanishes at 0
(true of IEEE `Math.sin`), the node height is positive and below the
`220/3 ≈ 73` threshold at which the skip guard could silently swallow every
spiral candidate (the engine always passes height 30), the bulk batch is
non-empty with non-negative heights (true of every call site) and the
minimum gap is non-negative. -/
theorem spaceSearch_never_above_parent (o : Oracles)
    (existingNodes : List Node) (parentNode : Node)
    (nodeWidth nodeHeight staggerOffset : ℚ) (childIndex siblingCount : Nat)
    (existB : List Node) (parentB : Node) (cd : List ChildData) (minGap : ℚ)
    (hsin : o.sinPi 0 = 0)
    (hh : 0 < nodeHeight) (hh2 : nodeHeight * 3 < 220)
    (hcd : cd ≠ []) (hhts : ∀ c ∈ cd, 0 ≤ c.height) (hmg : 0 ≤ minGap) :
    parentNode.pos.y <
      (findOpenSpace o existingNodes parentNode nodeWidth nodeHeight staggerOffset
        childIndex siblingCount).y ∧
    parentB.pos.y < (findBulkSpace o existB parentB cd minGap).y := by
  constructor
  · -- `findOpenSpace`
    have hguard_lt : ∀ y : ℚ, openGuardFail parentNode nodeHeight y = false →
        parentNode.pos.y < y := by
      intro y hy
      unfold openGuardFail at hy
      rw [decide_eq_false_iff_not, not_le] at hy
      linarith
    have h1 := le_max_right (openBaseY parentNode nodeHeight + openBaseStaggerY childIndex)
      (openBaseY parentNode nodeHeight)
    have h2 : parentNode.pos.y + 110 ≤ openBaseY parentNode nodeHeight := by
      have hy : yGapC = (110 : ℚ) := by norm_num [yGapC]
      have hm := le_max_left yGapC (nodeHeight * (3 / 2))
      unfold openBaseY
      rw [hy] at hm ⊢
      linarith
    unfold findOpenSpace
    cases hs1 : openSpaceStrategy1 existingNodes parentNode nodeWidth nodeHeight
        childIndex siblingCount with
    | some p =>
      exact hguard_lt p.y (openS1_guard existingNodes parentNode nodeWidth nodeHeight
        childIndex siblingCount p hs1)
    | none =>
      cases hs2 : openSpaceStrategy2 o existingNodes parentNode nodeWidth nodeHeight
          childIndex siblingCount with
      | some s =>
        exact hguard_lt s.y (openS2_guard o existingNodes parentNode nodeWidth nodeHeight
          childIndex siblingCount s hs2)
      | none =>
        cases hs3 : openSpaceStrategy3 o existingNodes parentNode nodeWidth nodeHeight
            childIndex siblingCount with
        | some s =>
          exact hguard_lt s.y (openS3_guard o existingNodes parentNode nodeWidth nodeHeight
            childIndex siblingCount s hs3)
        | none =>
          -- the guaranteed fallback: strategy 2's radius-25 / angle-0 candidate
          -- was at the base line and guard-passing, so it must have collided
          -- with some existing node, which therefore sits near or below the
          -- base line; the fallback clears the lowest node by two heights.
          simp only [openSpaceStrategy2] at hs2
          rw [List.findSome?_eq_none_iff] at hs2
          have h0 := hs2 0 (List.mem_range.mpr (by norm_num))
          have hnil := bestScored_eq_none h0
          rw [List.filterMap_eq_nil_iff] at hnil
          have hcand := hnil 0 (List.mem_range.mpr (by norm_num))
          simp only [Nat.cast_zero, zero_div, hsin, abs_zero, zero_mul, add_zero] at hcand
          have hcond := if_some_none_eq hcand
          rw [Bool.or_eq_true] at hcond
          rcases hcond with hg | hcol
          · exfalso
            unfold openGuardFail at hg
            rw [decide_eq_true_eq] at hg
            linarith
          · unfold openCollides checkAreaCollision at hcol
            rcases List.any_eq_true.mp hcol with ⟨n, hn, hboth⟩
            simp only [Bool.and_eq_true] at hboth
            have hsp := hboth.2
            unfold checkCollisionWithSpacing at hsp
            rw [Bool.not_eq_true'] at hsp
            rw [Bool.or_eq_false_iff, Bool.or_eq_false_iff, Bool.or_eq_false_iff] at hsp
            have h4 := hsp.2
            rw [decide_eq_false_iff_not, not_lt, nodeBox_y, nodeBox_height,
              estimateNodeHeight_eq] at h4
            dsimp only at h4
            have hmp : minNodePadding = (20 : ℚ) := by norm_num [minNodePadding]
            rw [hmp] at h4
            have hfb := openSpaceFallback_ge existingNodes parentNode nodeWidth nodeHeight
              childIndex siblingCount n hn
            linarith
  · -- `findBulkSpace`
    have hmaxH : 0 ≤ bulkMaxHeight cd := by
      cases cd with
      | nil => exact absurd rfl hcd
      | cons c cs =>
        refine le_trans (hhts c (List.mem_cons_self c cs)) ?_
        exact foldl_max_le_init _ _ _ le_rfl
    have hBase : parentB.pos.y < bulkBaseY parentB cd := by
      have hy : yGapC = (110 : ℚ) := by norm_num [yGapC]
      have hm := le_max_left yGapC (bulkMaxHeight cd * (3 / 2))
      unfold bulkBaseY
      rw [hy] at hm ⊢
      linarith
    unfold findBulkSpace
    dsimp only
    cases hb1 : bulkStrategy1 existB parentB cd minGap with
    | some p =>
      simp only [bulkStrategy1] at hb1
      have hmem := List.mem_of_find?_eq_some hb1
      simp only [List.mem_cons, List.not_mem_nil, or_false] at hmem
      rcases hmem with h | h | h | h
      · subst h; exact hBase
      · subst h; exact hBase
      · subst h; exact hBase
      · subst h
        show parentB.pos.y < bulkBaseY parentB cd + bulkMaxHeight cd + minGap * 3
        linarith
    | none =>
      cases hb2 : bulkStrategy2 o existB parentB cd minGap with
      | some p =>
        simp only [bulkStrategy2] at hb2
        rcases List.exists_of_findSome?_eq_some hb2 with ⟨i, hi, hinner⟩
        rcases List.exists_of_findSome?_eq_some hinner with ⟨k, hk, hf⟩
        rcases if_none_some_eq hf with ⟨-, hv⟩
        rw [← hv]
        exact lt_of_lt_of_le hBase (le_max_left _ _)
      | none =>
        cases hb3 : bulkStrategy3 o existB parentB cd minGap with
        | some s =>
          simp only [bulkStrategy3] at hb3
          rcases List.mem_flatMap.mp (bestScored_mem _ _ hb3) with ⟨i, hi, hmem2⟩
          rcases List.mem_filterMap.mp hmem2 with ⟨j, hj, hf⟩
          rcases if_none_some_eq hf with ⟨-, hv⟩
          rw [← hv]
          show parentB.pos.y < bulkBaseY parentB cd + 40 * (j : ℚ)
          have hj0 : (0 : ℚ) ≤ 40 * (j : ℚ) := by positivity
          linarith
        | none =>
          show parentB.pos.y < bulkBaseY parentB cd + bulkMaxHeight cd * 3 + minGap * 5
          linarith

/-- C7 (amended): the guaranteed fallback of `findOpenSpace` clears every
existing node — it sits at least two node heights below each of them, and
its footprint, even expanded by the `minNodePadding` spacing, overlaps no
existing node's estimated footprint.  (Any node height of at least 24
suffices; the engine always passes 30.  The corresponding statement for
`findBulkSpace`'s fallback is false: see the counterexample.) -/
theorem openFallback_clears_all_nodes (existingNodes : List Node) (parentNode : Node)
    (nodeWidth nodeHeight : ℚ) (childIndex siblingCount : Nat)
    (hh : 24 ≤ nodeHeight) :
    ∀ n ∈ existingNodes,
      n.pos.y + nodeHeight * 2 ≤
        (openSpaceFallback existingNodes parentNode nodeWidth nodeHeight
          childIndex siblingCount).y ∧
      checkCollisionWithSpacing
        ⟨(openSpaceFallback existingNodes parentNode nodeWidth nodeHeight
            childIndex siblingCount).x - nodeWidth / 2,
          (openSpaceFallback existingNodes parentNode nodeWidth nodeHeight
            childIndex siblingCount).y - nodeHeight / 2,
          nodeWidth, nodeHeight⟩ (nodeBox n) minNodePadding = false := by
  intro n hn
  have hge := openSpaceFallback_ge existingNodes parentNode nodeWidth nodeHeight
    childIndex siblingCount n hn
  refine ⟨hge, ?_⟩
  unfold checkCollisionWithSpacing
  rw [Bool.not_eq_false']
  rw [Bool.or_eq_true]
  refine Or.inr (decide_eq_true ?_)
  rw [nodeBox_y, nodeBox_height, estimateNodeHeight_eq]
  dsimp only
  have hmp : minNodePadding = (20 : ℚ) := by norm_num [minNodePadding]
  rw [hmp]
  linarith

/-- Closed instance of the amended C7: one existing node at the origin, the
parent at `(0, 200)`, the engine's node height 30. -/
theorem openFallback_clears_all_nodes_witness :
    (⟨"a", "a", ⟨0, 0⟩⟩ : Node).pos.y + 30 * 2 ≤
      (openSpaceFallback [⟨"a", "a", ⟨0, 0⟩⟩] ⟨"p", "p", ⟨0, 200⟩⟩ 120 30 0 1).y ∧
    checkCollisionWithSpacing
      ⟨(openSpaceFallback [⟨"a", "a", ⟨0, 0⟩⟩] ⟨"p", "p", ⟨0, 200⟩⟩ 120 30 0 1).x - 120 / 2,
        (openSpaceFallback [⟨"a", "a", ⟨0, 0⟩⟩] ⟨"p", "p", ⟨0, 200⟩⟩ 120 30 0 1).y - 30 / 2,
        120, 30⟩ (nodeBox ⟨"a", "a", ⟨0, 0⟩⟩) minNodePadding = false :=
  openFallback_clears_all_nodes [⟨"a", "a", ⟨0, 0⟩⟩] ⟨"p", "p", ⟨0, 200⟩⟩ 120 30 0 1
    (by norm_num) ⟨"a", "a", ⟨0, 0⟩⟩ (List.mem_singleton.mpr rfl)

set_option maxRecDepth 100000 in
set_option maxHeartbeats 4000000 in
/-- C7 counterexample for `findBulkSpace`: on the walled-off canvas
`c7Blockers` every strategy fails, the guaranteed fallback is used, and the
rectangle it returns still collides with existing nodes (under the very
`checkAreaCollision` test the search uses) — indeed eleven existing nodes
lie strictly below it, so it is not below the lowest currently-placed
node. -/
theorem bulk_fallback_collision_counterexample :
    bulkStrategy1 c7Blockers c7Parent c7Children 20 = none ∧
    bulkStrategy2 floatOracles c7Blockers c7Parent c7Children 20 = none ∧
    bulkStrategy3 floatOracles c7Blockers c7Parent c7Children 20 = none ∧
    findBulkSpace floatOracles c7Blockers c7Parent c7Children 20 =
      ⟨220, 300, 200, 30⟩ ∧
    checkAreaCollision 100 c7Blockers ⟨220, 300, 200, 30⟩ 20 = true ∧
    (c7Blockers.filter (fun n => decide ((300 : ℚ) < n.pos.y))).length = 11 := by
  have h1 : bulkStrategy1 c7Blockers c7Parent c7Children 20 = none := by
    with_unfolding_all decide
  have h2 : bulkStrategy2 floatOracles c7Blockers c7Parent c7Children 20 = none := by
    with_unfolding_all decide
  have h3 : bulkStrategy3 floatOracles c7Blockers c7Parent c7Children 20 = none := by
    with_unfolding_all decide
  refine ⟨h1, h2, h3, ?_, ?_, ?_⟩
  · simp only [findBulkSpace, h1, h2, h3]
    with_unfolding_all decide
  · with_unfolding_all decide
  · with_unfolding_all decide

/-- Closed instance of C6: a parent at the origin, empty canvases, the
engine's real node height 30 and a one-child bulk batch. -/
theorem spaceSearch_never_above_parent_witness :
    (⟨"p", "p", ⟨0, 0⟩⟩ : Node).pos.y <
      (findOpenSpace floatOracles [] ⟨"p", "p", ⟨0, 0⟩⟩ 120 30 0 0 1).y ∧
    (⟨"p", "p", ⟨0, 0⟩⟩ : Node).pos.y <
      (findBulkSpace floatOracles [] ⟨"p", "p", ⟨0, 0⟩⟩ [⟨"c", 100, 30⟩] 12).y :=
  spaceSearch_never_above_parent floatOracles [] ⟨"p", "p", ⟨0, 0⟩⟩ 120 30 0 0 1
    [] ⟨"p", "p", ⟨0, 0⟩⟩ [⟨"c", 100, 30⟩] 12
    (by with_unfolding_all decide) (by norm_num) (by norm_num)
    (by simp) (by with_unfolding_all decide) (by norm_num)

/-! ### C2: pinned positions through the layout pass -/

theorem lookupA_setPosA_self (st : List (String × Node)) (k : String) (p : Pos) :
    lookupA (setPosA st k p) k = (lookupA st k).map (fun n => { n with pos := p }) := by
  unfold lookupA setPosA
  rw [List.find?_map]
  have hcomp : ((fun q : String × Node => q.1 == k) ∘
      (fun q : String × Node => if q.1 == k then (q.1, { q.2 with pos := p }) else q)) =
      (fun q : String × Node => q.1 == k) := by
    funext q
    by_cases h : q.1 = k
    · simp [h]
    · simp [h]
  rw [hcomp]
  cases hf : st.find? (fun q => q.1 == k) with
  | none => rfl
  | some a =>
    have ha := List.find?_some hf
    simp only [Option.map_some', ha, if_pos]

theorem lookupA_setPosA_other (st : List (String × Node)) (k k' : String) (p : Pos)
    (h : (k' == k) = false) :
    lookupA (setPosA st k p) k' = lookupA st k' := by
  unfold lookupA setPosA
  rw [List.find?_map]
  have hcomp : ((fun q : String × Node => q.1 == k') ∘
      (fun q : String × Node => if q.1 == k then (q.1, { q.2 with pos := p }) else q)) =
      (fun q : String × Node => q.1 == k') := by
    funext q
    by_cases hq : q.1 = k
    · simp [hq]
    · simp [hq]
  rw [hcomp]
  cases hf : st.find? (fun q => q.1 == k') with
  | none => rfl
  | some a =>
    have ha := List.find?_some hf
    have hak' : a.1 = k' := by simpa using ha
    have hak : (a.1 == k) = false := by
      rw [hak']
      exact h
    simp only [Option.map_some', hak, Bool.false_eq_true, if_false]

theorem pinnedPreserved_refl (up : String → Option Pos) (st : List (String × Node)) :
    PinnedPreserved up st st := fun _ _ _ => Or.inr rfl

theorem pinnedPreserved_trans {up : String → Option Pos} {st st' st'' : List (String × Node)}
    (h1 : PinnedPreserved up st st') (h2 : PinnedPreserved up st' st'') :
    PinnedPreserved up st st'' := by
  intro k q hk
  rcases h2 k q hk with h | h
  · exact Or.inl h
  · rcases h1 k q hk with h' | h'
    · exact Or.inl (by rw [h]; exact h')
    · exact Or.inr (h.trans h')

theorem setPosA_pinned (up : String → Option Pos) (st : List (String × Node))
    (id : String) (x y : ℚ) :
    PinnedPreserved up st (setPosA st id ((up id).getD ⟨x, y⟩)) := by
  intro k q hk
  by_cases hkid : k = id
  · subst hkid
    rw [lookupA_setPosA_self]
    cases hl : lookupA st k with
    | none => exact Or.inr rfl
    | some n =>
      refine Or.inl ⟨{ n with pos := (up k).getD ⟨x, y⟩ }, by rw [Option.map_some'], ?_⟩
      show (up k).getD ⟨x, y⟩ = q
      rw [hk]
      rfl
  · exact Or.inr (lookupA_setPosA_other st id k _ (by simp [hkid]))

theorem foldl_snd_inv {γ : Type} (Q : List (String × Node) → Prop)
    (f : ℚ × List (String × Node) → γ → ℚ × List (String × Node))
    (hf : ∀ a c, Q a.2 → Q (f a c).2) :
    ∀ (l : List γ) (a : ℚ × List (String × Node)), Q a.2 → Q (l.foldl f a).2 := by
  intro l
  induction l with
  | nil => intro a h; exact h
  | cons c t ih =>
    intro a h
    rw [List.foldl_cons]
    exact ih (f a c) (hf a c h)

theorem placeManualChildren_pinned (o : Oracles) (up : String → Option Pos)
    (xGapP staggerP : ℚ) (parentId : String) (parentBottom : ℚ) (children : List String)
    (rec : String → ℚ → ℚ → List (String × Node) → List (String × Node))
    (hrec : ∀ c cx cy st', PinnedPreserved up st' (rec c cx cy st'))
    (st : List (String × Node)) (x : ℚ) :
    PinnedPreserved up st
      (placeManualChildren o up xGapP staggerP parentId parentBottom children rec st x) := by
  unfold placeManualChildren
  refine foldl_snd_inv (PinnedPreserved up st) _ ?_ children.enum _
    (pinnedPreserved_refl up st)
  intro a c hQ
  dsimp only
  cases hm : up c.2 with
  | some mp => exact pinnedPreserved_trans hQ (hrec c.2 mp.x mp.y a.2)
  | none => exact pinnedPreserved_trans hQ (hrec c.2 _ _ a.2)

theorem placeBulkChildren_pinned (o : Oracles) (up : String → Option Pos) (xGapP : ℚ)
    (parentId : String) (parentBottom : ℚ) (children : List String)
    (childrenData : List ChildData)
    (rec : String → ℚ → ℚ → List (String × Node) → List (String × Node))
    (hrec : ∀ c cx cy st', PinnedPreserved up st' (rec c cx cy st'))
    (st : List (String × Node)) :
    PinnedPreserved up st
      (placeBulkChildren o xGapP parentId parentBottom children childrenData rec st) := by
  unfold placeBulkChildren
  refine foldl_snd_inv (PinnedPreserved up st) _ ?_ children.enum _
    (pinnedPreserved_refl up st)
  intro a c hQ
  dsimp only
  exact pinnedPreserved_trans hQ (hrec c.2 _ _ a.2)

theorem placeSubtree_pinned (o : Oracles) (childMap : String → List String)
    (up : String → Option Pos) (xGapP staggerP : ℚ) :
    ∀ (fuel : Nat) (id : String) (x y : ℚ) (st : List (String × Node)),
      PinnedPreserved up st (placeSubtree o childMap up xGapP staggerP fuel id x y st) := by
  intro fuel
  induction fuel with
  | zero => intro id x y st; exact pinnedPreserved_refl up st
  | succ fuel ih =>
    intro id x y st
    rw [placeSubtree]
    cases hl : lookupA st id with
    | none => exact pinnedPreserved_refl up st
    | some n =>
      dsimp only
      by_cases hemp : (childMap id).isEmpty
      · rw [if_pos hemp]
        exact setPosA_pinned up st id x y
      · rw [if_neg hemp]
        by_cases hman : (childMap id).any (fun cid => (up cid).isSome)
        · rw [if_pos hman]
          exact pinnedPreserved_trans (setPosA_pinned up st id x y)
            (placeManualChildren_pinned o up xGapP staggerP id _ (childMap id)
              _ (fun c cx cy st' => ih c cx cy st') _ x)
        · rw [if_neg hman]
          exact pinnedPreserved_trans (setPosA_pinned up st id x y)
            (placeBulkChildren_pinned o up xGapP id _ (childMap id) _
              _ (fun c cx cy st' => ih c cx cy st') _)

/-- C2 (amended): the tree-walk phase of the automatic layout pass
(`assignStaggeredTreePositions`, through its id-keyed state
`assignStaggeredSt`) preserves every pinned node: a node with a stored
user position either comes out carrying exactly that stored position, or
its map entry is untouched.  (The full pass does not: see the
counterexample, where the validation-triggered resolver run over all nodes
moves a pinned node.) -/
theorem assignStaggered_preserves_pinned (o : Oracles) (nodes : List Node)
    (edges : List Edge) (rootId : String) (startX startY xGapP staggerP : ℚ)
    (up : String → Option Pos) (fuel : Nat) :
    PinnedPreserved up (fromEntriesJS (nodes.map (fun n => (n.id, n))))
      (assignStaggeredSt o nodes edges rootId startX startY xGapP staggerP up fuel) := by
  unfold assignStaggeredSt
  dsimp only
  by_cases h : (lookupA (fromEntriesJS (nodes.map fun n => (n.id, n))) rootId).isSome
  · rw [if_pos h]
    exact placeSubtree_pinned o (getChildMap edges) up xGapP staggerP fuel rootId startX startY _
  · rw [if_neg h]
    exact pinnedPreserved_refl up _

/-- Closed instance of the amended C2, at the pinned root of the concrete
C2 canvas. -/
theorem assignStaggered_preserves_pinned_witness :
    (∃ n, lookupA (assignStaggeredSt floatOracles c2Nodes c2Edges "R" startXC startYC
        xGapC staggerYC c2Up 5) "R" = some n ∧ n.pos = ⟨0, 0⟩) ∨
    lookupA (assignStaggeredSt floatOracles c2Nodes c2Edges "R" startXC startYC
        xGapC staggerYC c2Up 5) "R" =
      lookupA (fromEntriesJS (c2Nodes.map (fun n => (n.id, n)))) "R" :=
  assignStaggered_preserves_pinned floatOracles c2Nodes c2Edges "R" startXC startYC
    xGapC staggerYC c2Up 5 "R" ⟨0, 0⟩ (by with_unfolding_all decide)

set_option maxRecDepth 100000 in
set_option maxHeartbeats 4000000 in
/-- C2 counterexample: on the concrete canvas the full automatic layout
pass moves both pinned nodes — `R` from its stored `(0, 0)` to
`(0, 106/5)` and `S` from `(0, 4)` to `(0, 58/5)`.  Every node is pinned,
so the pass targets none of them and the selective resolution step is
skipped entirely; but the validator still sees the `R`/`S` overlap and the
degraded final resolver run is applied to *all* nodes, pinned ones
included. -/
theorem layoutPass_moves_pinned_counterexample :
    c2Up "R" = some ⟨0, 0⟩ ∧ c2Up "S" = some ⟨0, 4⟩ ∧
    jsNodeByIdLast c2Nodes "R" = some ⟨"R", "R", ⟨0, 0⟩⟩ ∧
    jsNodeByIdLast (layoutPass floatOracles c2Nodes c2Edges c2Up 5) "R" =
      some ⟨"R", "R", ⟨0, 106/5⟩⟩ ∧
    jsNodeByIdLast (layoutPass floatOracles c2Nodes c2Edges c2Up 5) "S" =
      some ⟨"S", "S", ⟨0, 58/5⟩⟩ := by
  refine ⟨rfl, rfl, rfl, ?_, ?_⟩
  · with_unfolding_all decide
  · with_unfolding_all decide

/-! ### C5: descendant closure on a cyclic edge list -/

theorem cycChildMapA : getChildMap cycEdges "A" = ["B"] := by rfl

theorem cycChildMapB : getChildMap cycEdges "B" = ["A"] := by rfl

theorem goDesc_cyc_none : ∀ fuel : Nat, ∀ acc : List String,
    goDescD (getChildMap cycEdges) fuel "A" acc = none ∧
    goDescD (getChildMap cycEdges) fuel "B" acc = none := by
  intro fuel
  induction fuel with
  | zero => intro acc; exact ⟨rfl, rfl⟩
  | succ n ih =>
    intro acc
    constructor
    · show goDescAux (fun c a => goDescD (getChildMap cycEdges) n c a)
        (getChildMap cycEdges "A") acc = none
      rw [cycChildMapA]
      show (match goDescD (getChildMap cycEdges) n "B" (acc ++ ["B"]) with
        | none => none
        | some acc2 => goDescAux (fun c a => goDescD (getChildMap cycEdges) n c a) [] acc2)
        = none
      rw [(ih (acc ++ ["B"])).2]
    · show goDescAux (fun c a => goDescD (getChildMap cycEdges) n c a)
        (getChildMap cycEdges "B") acc = none
      rw [cycChildMapB]
      show (match goDescD (getChildMap cycEdges) n "A" (acc ++ ["A"]) with
        | none => none
        | some acc2 => goDescAux (fun c a => goDescD (getChildMap cycEdges) n c a) [] acc2)
        = none
      rw [(ih (acc ++ ["A"])).1]

/-- C5: the claim says `getDescendantIds` terminates on cyclic adjacency
because it guards against revisiting already-seen ids.  The source
(part_002, lines 51-58) has no such guard: on the two-node cycle
`A → B → A` the recursion never returns, at any stack depth (the fuelled
embedding runs out of fuel for every fuel value, i.e. the JavaScript
recursion overflows the stack).  The code contradicts the spec's explicit
guard requirement, so this is recorded as a code bug. -/
theorem getDescendantIds_cycle_diverges :
    ∀ fuel : Nat, getDescendantIds (getChildMap cycEdges) fuel "A" = none := by
  intro fuel
  unfold getDescendantIds
  exact (goDesc_cyc_none fuel []).1

/-! ### C4: replace-children merge removes only the direct children -/

/-- C4 (counterexample): in the graph `X → C → G`, re-expanding `X` with an
empty generation removes only the direct child `C`; the grandchild `G`
(which was reachable from `X` only through `C`) stays in the node list, and
the edge `C → G`, which references the removed node `C`, stays in the edge
list. -/
theorem mergeExpanded_retains_grandchild_counterexample :
    ((mergeExpandedNodesAndEdges
        [⟨"X", "", ⟨0, 0⟩⟩, ⟨"C", "", ⟨0, 0⟩⟩, ⟨"G", "", ⟨0, 0⟩⟩]
        [⟨"e1", "X", "C"⟩, ⟨"e2", "C", "G"⟩] [] [] "X").nodes.map Node.id = ["X", "G"]) ∧
    ((mergeExpandedNodesAndEdges
        [⟨"X", "", ⟨0, 0⟩⟩, ⟨"C", "", ⟨0, 0⟩⟩, ⟨"G", "", ⟨0, 0⟩⟩]
        [⟨"e1", "X", "C"⟩, ⟨"e2", "C", "G"⟩] [] [] "X").edges.map
      (fun e => (e.source, e.target)) = [("C", "G")]) := by
  constructor <;> decide

/-- C4 (amended): `mergeExpandedNodesAndEdges` removes exactly the *direct*
children of the expanded node from the node list and exactly the edges from
the expanded node to those children from the edge list; deeper descendants
and their edges (including edges out of removed children) are retained. -/
theorem mergeExpanded_membership (prevNodes : List Node) (prevEdges : List Edge)
    (newNodes : List Node) (newEdges : List Edge) (X : String) :
    (∀ n, n ∈ (mergeExpandedNodesAndEdges prevNodes prevEdges newNodes newEdges X).nodes ↔
      ((n ∈ prevNodes ∧ n.id ∉ oldChildrenIds prevEdges X) ∨ n ∈ newNodes)) ∧
    (∀ e, e ∈ (mergeExpandedNodesAndEdges prevNodes prevEdges newNodes newEdges X).edges ↔
      ((e ∈ prevEdges ∧ ¬(e.source = X ∧ e.target ∈ oldChildrenIds prevEdges X)) ∨
        e ∈ newEdges)) := by
  constructor
  · intro n
    simp [mergeExpandedNodesAndEdges, List.mem_filter]
  · intro e
    simp [mergeExpandedNodesAndEdges, List.mem_filter]
    tauto

/-! ### C10: transform of malformed generation results -/

/-- C10 (counterexample): a payload with a `nodes` array but no `edges`
field makes `transformGPTToFlow` throw (the unguarded
`gptData.edges.map(...)` is a `TypeError` on `undefined`), modelled here by
the `none` result.  The claim that every such input returns without
throwing is false. -/
theorem transformGPT_missing_edges_throws :
    transformGPTToFlow (fun _ => ⟨0, 0⟩)
      (some ⟨some [⟨"n1", "label", none⟩], none⟩) = none := by rfl

/-- C10 (amended): the `!gptData || !gptData.nodes` guard makes
`transformGPTToFlow` return an empty flow, without throwing, for a `null`
payload and for a payload without a `nodes` field; and when both `nodes`
and `edges` are present the function returns normally.  Only the
nodes-present / edges-missing combination throws. -/
theorem transformGPT_guard_behaviour (rand : Nat → Pos) :
    (transformGPTToFlow rand none = some ⟨[], []⟩) ∧
    (∀ d : GPTData, d.nodes = none → transformGPTToFlow rand (some d) = some ⟨[], []⟩) ∧
    (∀ (d : GPTData) ns es, d.nodes = some ns → d.edges = some es →
      (transformGPTToFlow rand (some d)).isSome = true) := by
  refine ⟨rfl, ?_, ?_⟩
  · intro d hd
    simp [transformGPTToFlow, hd]
  · intro d ns es hn he
    simp [transformGPTToFlow, hn, he]

/-- C10 (witness for the amended theorem). -/
theorem transformGPT_guard_behaviour_witness :
    transformGPTToFlow (fun _ => ⟨0, 0⟩) (some ⟨none, none⟩) = some ⟨[], []⟩ ∧
    (transformGPTToFlow (fun _ => ⟨0, 0⟩) (some ⟨some [], some []⟩)).isSome = true :=
  ⟨(transformGPT_guard_behaviour (fun _ => ⟨0, 0⟩)).2.1 ⟨none, none⟩ rfl,
   (transformGPT_guard_behaviour (fun _ => ⟨0, 0⟩)).2.2 ⟨some [], some []⟩ [] [] rfl rfl⟩

end MindMapViz
